import Mathlib

/-!
Shallow embedding of the Vinnodrive storage engine: the storage router in
`packages/api/src/routers/storage/storage.ts` together with the `moveFolder`
procedure of the storage router embedded in `packages/auth/src/index.ts`.

Tables of the relational store are lists of rows (in insertion order, which is
the order `findFirst`/`findMany` observe), the blob store is the list of keys
currently present, and every tRPC procedure is a function from a state to a
result paired with the successor state.  A thrown `TRPCError` is an `Except`
error; mutations performed before the throw persist, mirroring the fact that
only the explicit `db.transaction` blocks are atomic.  String-valued columns
(ids, hashes, names, object keys) are represented by `Nat`, byte counts by
`Int` (JavaScript numbers used only additively), timestamps by `Nat`
milliseconds, and nullable columns by `Option`.
-/

/-- Row of the `files` table: one deduplicated content object
(hash, size, S3 path, live reference count). -/
structure FileRow where
  hash : Nat
  size : Int
  path : Nat
  refCount : Int
  deriving Repr, DecidableEq

/-- Row of the `userAssets` table: a user-visible file entry pointing at a
content hash; `deletedAt = none` means active, `some t` means trashed. -/
structure AssetRow where
  id : Nat
  name : Nat
  userId : Nat
  folderId : Option Nat
  fileHash : Nat
  deletedAt : Option Nat
  deriving Repr, DecidableEq

/-- Row of the `folders` table; `parentId = none` means the folder is at the
root, `deletedAt = none` means active. -/
structure FolderRow where
  id : Nat
  name : Nat
  userId : Nat
  parentId : Option Nat
  deletedAt : Option Nat
  deriving Repr, DecidableEq

/-- Row of the `userQuotas` table (one per user). -/
structure QuotaRow where
  userId : Nat
  storageUsed : Int
  storageLimit : Int
  rateLimit : Nat
  deriving Repr, DecidableEq

/-- Row of the `rateLimitWindows` table (one per user and window start). -/
structure RateWindowRow where
  userId : Nat
  windowStart : Nat
  requestCount : Nat
  deriving Repr, DecidableEq

/-- The whole observable state: the five relations plus the set of keys
present in the blob store. -/
structure State where
  files : List FileRow
  userAssets : List AssetRow
  folders : List FolderRow
  userQuotas : List QuotaRow
  rateLimitWindows : List RateWindowRow
  blobs : List Nat
  deriving Repr, DecidableEq

/-- `TRPCError` codes thrown by the storage router (plus `internal` for a
JavaScript `TypeError` escaping a handler). -/
inductive Err where
  | notFound
  | badRequest
  | preconditionFailed
  | payloadTooLarge
  | tooManyRequests
  | internal
  deriving Repr, DecidableEq

/-- `DEFAULT_STORAGE_LIMIT = 1 * 1024 * 1024 * 1024`. -/
def DEFAULT_STORAGE_LIMIT : Int := 1073741824

/-- `DEFAULT_RATE_LIMIT = 2` API calls per second. -/
def DEFAULT_RATE_LIMIT : Nat := 2

/-- `RATE_LIMIT_WINDOW_MS = 1000`. -/
def RATE_LIMIT_WINDOW_MS : Nat := 1000

/-- Update the first list element satisfying `p` (the row a `findFirst`
returned, subsequently addressed by its primary key). -/
def updateFirst (p : α → Bool) (g : α → α) : List α → List α
  | [] => []
  | x :: xs => if p x then g x :: xs else x :: updateFirst p g xs

/-- The rate limit that `checkRateLimit` reads for a user:
`quota?.rateLimit ?? DEFAULT_RATE_LIMIT`. -/
def effRateLimit (uid : Nat) (s : State) : Nat :=
  match s.userQuotas.find? (fun q => q.userId == uid) with
  | some q => q.rateLimit
  | none => DEFAULT_RATE_LIMIT

/-- The request count recorded for `(uid, w)` in `rateLimitWindows`
(0 when no row exists). -/
def windowCount (uid w : Nat) (s : State) : Nat :=
  match s.rateLimitWindows.find? (fun v => v.userId == uid && v.windowStart == w) with
  | some v => v.requestCount
  | none => 0

/-- Helper `checkRateLimit(userId)`: fixed-window limiter.  Computes the
window start `floor(now / 1000) * 1000`, fails with `TOO_MANY_REQUESTS` when
the current window's count has reached the user's limit, otherwise increments
the window row or inserts it at 1 (sweeping rows older than one minute on
insert). -/
def checkRateLimit (now uid : Nat) (s : State) : Except Err Unit × State :=
  let windowStart := now / RATE_LIMIT_WINDOW_MS * RATE_LIMIT_WINDOW_MS
  let rateLimit := effRateLimit uid s
  match s.rateLimitWindows.find? (fun v => v.userId == uid && v.windowStart == windowStart) with
  | some w =>
    if rateLimit ≤ w.requestCount then
      (.error .tooManyRequests, s)
    else
      let rlw := updateFirst (fun v => v.userId == uid && v.windowStart == windowStart)
        (fun v => { v with requestCount := v.requestCount + 1 }) s.rateLimitWindows
      (.ok (), { s with rateLimitWindows := rlw })
  | none =>
    let cutoff := now - 60000
    let inserted := s.rateLimitWindows ++ [⟨uid, windowStart, 1⟩]
    let swept := inserted.filter (fun v => !(v.userId == uid && v.windowStart < cutoff))
    (.ok (), { s with rateLimitWindows := swept })

/-- Helper `checkStorageQuota(userId, additionalBytes)`: lazily creates the
default quota row, then fails with `PAYLOAD_TOO_LARGE` when
`used + additionalBytes > limit`.  The lazily inserted row persists even when
the check then fails. -/
def checkStorageQuota (uid : Nat) (additionalBytes : Int) (s : State) :
    Except Err Unit × State :=
  match s.userQuotas.find? (fun q => q.userId == uid) with
  | some q =>
    if q.storageLimit < q.storageUsed + additionalBytes then
      (.error .payloadTooLarge, s)
    else
      (.ok (), s)
  | none =>
    let qs := s.userQuotas ++ [⟨uid, 0, DEFAULT_STORAGE_LIMIT, DEFAULT_RATE_LIMIT⟩]
    let s1 := { s with userQuotas := qs }
    if DEFAULT_STORAGE_LIMIT < (0 : Int) + additionalBytes then
      (.error .payloadTooLarge, s1)
    else
      (.ok (), s1)

/-- Helper `updateStorageUsage(userId, deltaBytes)`: atomic upsert whose
update clause is `GREATEST(0, storageUsed + delta)`. -/
def updateStorageUsage (uid : Nat) (deltaBytes : Int) (s : State) : State :=
  if s.userQuotas.any (fun q => q.userId == uid) then
    let qs := s.userQuotas.map (fun q =>
      if q.userId == uid then
        { q with storageUsed := max 0 (q.storageUsed + deltaBytes) }
      else q)
    { s with userQuotas := qs }
  else
    let qs := s.userQuotas ++ [⟨uid, max 0 deltaBytes, DEFAULT_STORAGE_LIMIT, DEFAULT_RATE_LIMIT⟩]
    { s with userQuotas := qs }

/-- The bytes currently charged to a user (`storageUsed` of their quota row,
0 when the row does not exist yet). -/
def quotaUsed (uid : Nat) (s : State) : Int :=
  match s.userQuotas.find? (fun q => q.userId == uid) with
  | some q => q.storageUsed
  | none => 0

/-- `getUploadPresignedUrl`: rate limit (middleware), quota check on the
declared size, then deduplication check.  When a `files` row with the hash
exists, one transaction inserts the new asset and increments the reference
count, usage is charged, and `deduplicated = true` is returned; otherwise a
presigned URL is issued without touching the database
(`deduplicated = false`). -/
def getUploadPresignedUrl (now uid fname : Nat) (size : Int) (hash : Nat)
    (folderId : Option Nat) (newAssetId : Nat) (s : State) :
    Except Err Bool × State :=
  match checkRateLimit now uid s with
  | (.error e, s1) => (.error e, s1)
  | (.ok _, s1) =>
    match checkStorageQuota uid size s1 with
    | (.error e, s2) => (.error e, s2)
    | (.ok _, s2) =>
      match s2.files.find? (fun f => f.hash == hash) with
      | some existingFile =>
        let assets2 := s2.userAssets ++
          [⟨newAssetId, fname, uid, folderId, existingFile.hash, none⟩]
        let files2 := s2.files.map (fun f =>
          if f.hash == existingFile.hash then { f with refCount := f.refCount + 1 } else f)
        let s3 := { s2 with userAssets := assets2, files := files2 }
        (.ok true, updateStorageUsage uid size s3)
      | none => (.ok false, s2)

/-- The `files` upsert of `confirmUpload`: `INSERT ... ON CONFLICT (hash) DO
UPDATE SET refCount = refCount + 1` — increment when a row carries the hash,
insert at `refCount = 1` otherwise. -/
def upsertFiles (hash : Nat) (size : Int) (l : List FileRow) : List FileRow :=
  if l.any (fun f => f.hash == hash) then
    l.map (fun f => if f.hash == hash then { f with refCount := f.refCount + 1 } else f)
  else
    l ++ [⟨hash, size, hash, 1⟩]

/-- `confirmUpload`: rate limit (middleware), blob-existence check in S3, then
one transaction upserting the `files` row and inserting the asset row;
finally the usage charge.  There is no quota check in this procedure. -/
def confirmUpload (now uid fname : Nat) (size : Int) (hash : Nat)
    (folderId : Option Nat) (newAssetId : Nat) (s : State) :
    Except Err Unit × State :=
  match checkRateLimit now uid s with
  | (.error e, s1) => (.error e, s1)
  | (.ok _, s1) =>
    if s1.blobs.contains hash then
      let files' := upsertFiles hash size s1.files
      let assets2 := s1.userAssets ++ [⟨newAssetId, fname, uid, folderId, hash, none⟩]
      let s2 := { s1 with files := files', userAssets := assets2 }
      (.ok (), updateStorageUsage uid size s2)
    else
      (.error .notFound, s1)

/-- The transaction body shared by `deleteAsset`, `permanentlyDelete` and the
per-asset loops of `permanentlyDeleteFolder` / `emptyTrash`: delete the asset
row, decrement the reference count of its hash, and when the returned updated
row has `refCount <= 0`, delete the S3 object at its path and the `files`
row. -/
def purgeAssetTx (aid fileHash : Nat) (s : State) : State :=
  let assets' := s.userAssets.filter (fun a => !(a.id == aid))
  let files1 := s.files.map (fun f =>
    if f.hash == fileHash then { f with refCount := f.refCount - 1 } else f)
  match files1.find? (fun f => f.hash == fileHash) with
  | some updatedFile =>
    if updatedFile.refCount ≤ 0 then
      let files2 := files1.filter (fun f => !(f.hash == fileHash))
      let blobs2 := s.blobs.filter (fun k => !(k == updatedFile.path))
      { s with userAssets := assets', files := files2, blobs := blobs2 }
    else
      { s with userAssets := assets', files := files1 }
  | none => { s with userAssets := assets', files := files1 }

/-- `deleteAsset`: rate limit, find the caller's asset (any state) joined with
its `files` row, then the purge transaction and the usage release by the
joined row's `size`.  A missing `files` row makes `asset.file.size` a
`TypeError` (`internal`). -/
def deleteAsset (now uid aid : Nat) (s : State) : Except Err Unit × State :=
  match checkRateLimit now uid s with
  | (.error e, s1) => (.error e, s1)
  | (.ok _, s1) =>
    match s1.userAssets.find? (fun a => a.id == aid && a.userId == uid) with
    | none => (.error .notFound, s1)
    | some asset =>
      match s1.files.find? (fun f => f.hash == asset.fileHash) with
      | none => (.error .internal, s1)
      | some file =>
        let s2 := purgeAssetTx aid asset.fileHash s1
        (.ok (), updateStorageUsage uid (-file.size) s2)

/-- `permanentlyDelete`: as `deleteAsset` but the asset must be in the trash
(`deletedAt` not null). -/
def permanentlyDelete (now uid aid : Nat) (s : State) : Except Err Unit × State :=
  match checkRateLimit now uid s with
  | (.error e, s1) => (.error e, s1)
  | (.ok _, s1) =>
    match s1.userAssets.find? (fun a => a.id == aid && a.userId == uid && a.deletedAt != none) with
    | none => (.error .notFound, s1)
    | some asset =>
      match s1.files.find? (fun f => f.hash == asset.fileHash) with
      | none => (.error .internal, s1)
      | some file =>
        let s2 := purgeAssetTx aid asset.fileHash s1
        (.ok (), updateStorageUsage uid (-file.size) s2)

/-- `moveToTrash`: `UPDATE userAssets SET deletedAt = now WHERE id AND userId
AND deletedAt IS NULL`; `NOT_FOUND` when no row was updated. -/
def moveToTrash (now uid aid : Nat) (s : State) : Except Err Unit × State :=
  match checkRateLimit now uid s with
  | (.error e, s1) => (.error e, s1)
  | (.ok _, s1) =>
    if s1.userAssets.any (fun a => a.id == aid && a.userId == uid && a.deletedAt == none) then
      (.ok (), { s1 with userAssets := s1.userAssets.map (fun a =>
        if a.id == aid && a.userId == uid && a.deletedAt == none then
          { a with deletedAt := some now }
        else a) })
    else
      (.error .notFound, s1)

/-- `restoreFromTrash`: `UPDATE userAssets SET deletedAt = NULL WHERE id AND
userId AND deletedAt IS NOT NULL`; `NOT_FOUND` when no row was updated. -/
def restoreFromTrash (now uid aid : Nat) (s : State) : Except Err Unit × State :=
  match checkRateLimit now uid s with
  | (.error e, s1) => (.error e, s1)
  | (.ok _, s1) =>
    if s1.userAssets.any (fun a => a.id == aid && a.userId == uid && a.deletedAt != none) then
      (.ok (), { s1 with userAssets := s1.userAssets.map (fun a =>
        if a.id == aid && a.userId == uid && a.deletedAt != none then
          { a with deletedAt := none }
        else a) })
    else
      (.error .notFound, s1)

/-- `deleteFolder` (strict, non-trash delete): the folder must belong to the
caller; any `userAssets` row with this `folderId` or any `folders` row with
this `parentId` — in any lifecycle state — makes it fail with
`PRECONDITION_FAILED`; otherwise the single folder row is deleted. -/
def deleteFolder (now uid fid : Nat) (s : State) : Except Err Unit × State :=
  match checkRateLimit now uid s with
  | (.error e, s1) => (.error e, s1)
  | (.ok _, s1) =>
    match s1.folders.find? (fun f => f.id == fid && f.userId == uid) with
    | none => (.error .notFound, s1)
    | some _ =>
      let hasFiles := s1.userAssets.any (fun a => a.folderId == some fid)
      let hasSubfolders := s1.folders.any (fun f => f.parentId == some fid)
      if hasFiles || hasSubfolders then
        (.error .preconditionFailed, s1)
      else
        (.ok (), { s1 with folders := s1.folders.filter (fun f => !(f.id == fid)) })

/-- The recursive folder-id collectors (`collectFolderIds`,
`collectTrashedFolderIds`, `collectAllFolderIds`) share this shape: the root
id followed by the collections of all child rows of the caller that pass the
`keep` filter.  The source recursion is unbounded; `fuel` bounds the descent
depth and is passed as the folder-table size, which the acyclicity of the
parent relation makes sufficient. -/
def collectIds (fs : List FolderRow) (uid : Nat) (keep : FolderRow → Bool) :
    Nat → Nat → List Nat
  | 0, fid => [fid]
  | fuel + 1, fid =>
    let subfolders := fs.filter (fun f => f.parentId == some fid && f.userId == uid && keep f)
    fid :: subfolders.flatMap (fun sub => collectIds fs uid keep fuel sub.id)

/-- `collectTrashedFolderIds` of `restoreFolderFromTrash`: descend only
through trashed subfolders. -/
def collectTrashedFolderIds (fs : List FolderRow) (uid fuel fid : Nat) : List Nat :=
  collectIds fs uid (fun f => f.deletedAt != none) fuel fid

/-- `collectAllFolderIds` of `permanentlyDeleteFolder`: descend through
subfolders in any state. -/
def collectAllFolderIds (fs : List FolderRow) (uid fuel fid : Nat) : List Nat :=
  collectIds fs uid (fun _ => true) fuel fid

/-- Does `userAssets.folderId IN (folderIds)` hold (SQL `IN` never matches a
NULL folder id)? -/
def assetInFolders (ids : List Nat) (a : AssetRow) : Bool :=
  match a.folderId with
  | some g => ids.contains g
  | none => false

/-- `restoreFolderFromTrash`: the folder must be in the trash; when it has a
parent, the parent must exist and not be trashed (else `PRECONDITION_FAILED`);
then one transaction clears `deletedAt` on every trashed asset of the user
inside the collected trashed subtree and on every collected folder. -/
def restoreFolderFromTrash (now uid fid : Nat) (s : State) : Except Err Unit × State :=
  match checkRateLimit now uid s with
  | (.error e, s1) => (.error e, s1)
  | (.ok _, s1) =>
    match s1.folders.find? (fun f => f.id == fid && f.userId == uid && f.deletedAt != none) with
    | none => (.error .notFound, s1)
    | some folder =>
      let parentCheck : Except Err Unit :=
        match folder.parentId with
        | none => .ok ()
        | some pid =>
          match s1.folders.find? (fun f => f.id == pid && f.userId == uid) with
          | none => .error .preconditionFailed
          | some parentFolder =>
            if parentFolder.deletedAt != none then .error .preconditionFailed else .ok ()
      match parentCheck with
      | .error e => (.error e, s1)
      | .ok _ =>
        let folderIds := collectTrashedFolderIds s1.folders uid s1.folders.length fid
        let assets2 := s1.userAssets.map (fun a =>
          if a.userId == uid && a.deletedAt != none && assetInFolders folderIds a then
            { a with deletedAt := none }
          else a)
        let folders2 := s1.folders.map (fun f =>
          if folderIds.contains f.id then { f with deletedAt := none } else f)
        (.ok (), { s1 with userAssets := assets2, folders := folders2 })

/-- The order in which `permanentlyDeleteFolder` deletes folder rows:
`folderIds.reverse()` of the depth-first collection. -/
def pdfDeletionOrder (fs : List FolderRow) (uid fid : Nat) : List Nat :=
  (collectAllFolderIds fs uid fs.length fid).reverse

/-- Sum of `asset.file.size` over a joined asset list; `none` when some
asset's `files` row is missing (the join field is null and `.size` throws). -/
def joinSizes (fs : List FileRow) : List AssetRow → Option Int
  | [] => some 0
  | a :: rest =>
    match fs.find? (fun f => f.hash == a.fileHash), joinSizes fs rest with
    | some f, some t => some (f.size + t)
    | _, _ => none

/-- The per-asset purge loop of `permanentlyDeleteFolder` and `emptyTrash`. -/
def purgeAssets (l : List AssetRow) (s : State) : State :=
  l.foldl (fun st a => purgeAssetTx a.id a.fileHash st) s

/-- `permanentlyDeleteFolder`: the folder must be in the trash; collect the
whole subtree (any state), purge every asset of the user located in it
(releasing references and freeing blobs), delete the folder rows in reverse
collection order, and release the summed joined sizes from the quota. -/
def permanentlyDeleteFolder (now uid fid : Nat) (s : State) : Except Err Unit × State :=
  match checkRateLimit now uid s with
  | (.error e, s1) => (.error e, s1)
  | (.ok _, s1) =>
    match s1.folders.find? (fun f => f.id == fid && f.userId == uid && f.deletedAt != none) with
    | none => (.error .notFound, s1)
    | some _ =>
      let folderIds := collectAllFolderIds s1.folders uid s1.folders.length fid
      let assetsInFolders := s1.userAssets.filter (fun a =>
        a.userId == uid && assetInFolders folderIds a)
      match joinSizes s1.files assetsInFolders with
      | none => (.error .internal, s1)
      | some totalFreedBytes =>
        let s2 := purgeAssets assetsInFolders s1
        let folders3 := (pdfDeletionOrder s1.folders uid fid).foldl
          (fun fl d => fl.filter (fun f => !(f.id == d))) s2.folders
        let s3 := { s2 with folders := folders3 }
        (.ok (), updateStorageUsage uid (-totalFreedBytes) s3)

/-- `calculateDepth` of `emptyTrash`: walk the parent chain inside the
trashed-folder list, counting steps until the chain leaves the list or
reaches a root.  Fuel bounds the walk (the source recursion is unbounded). -/
def calculateDepth (tf : List FolderRow) : Nat → Nat → Nat → Nat
  | 0, _, depth => depth
  | fuel + 1, fid, depth =>
    match tf.find? (fun f => f.id == fid) with
    | none => depth
    | some folder =>
      match folder.parentId with
      | none => depth
      | some pid =>
        match tf.find? (fun f => f.id == pid) with
        | none => depth
        | some parent => calculateDepth tf fuel parent.id (depth + 1)

/-- Stable insertion step for sorting in descending key order (models the
stable JavaScript `Array.prototype.sort` with comparator
`(a, b) => depth(b) - depth(a)`). -/
def insertDescBy (key : α → Nat) (x : α) : List α → List α
  | [] => [x]
  | y :: ys => if key x < key y then y :: insertDescBy key x ys else x :: y :: ys

/-- Stable sort in descending key order. -/
def sortDescBy (key : α → Nat) : List α → List α
  | [] => []
  | x :: xs => insertDescBy key x (sortDescBy key xs)

/-- The order in which `emptyTrash` deletes the trashed folder rows: sorted
by computed depth, deepest first. -/
def emptyTrashFolderOrder (tf : List FolderRow) : List FolderRow :=
  sortDescBy (fun f => calculateDepth tf tf.length f.id 0) tf

/-- `emptyTrash`: purge every trashed asset of the user (releasing references
and freeing blobs), then delete every trashed folder of the user deepest
first, then release the summed joined sizes from the quota.  When the trash
is empty the procedure returns without touching anything. -/
def emptyTrash (now uid : Nat) (s : State) : Except Err Unit × State :=
  match checkRateLimit now uid s with
  | (.error e, s1) => (.error e, s1)
  | (.ok _, s1) =>
    let trashedAssets := s1.userAssets.filter (fun a => a.userId == uid && a.deletedAt != none)
    let trashedFolders := s1.folders.filter (fun f => f.userId == uid && f.deletedAt != none)
    if trashedAssets.isEmpty && trashedFolders.isEmpty then
      (.ok (), s1)
    else
      match joinSizes s1.files trashedAssets with
      | none => (.error .internal, s1)
      | some totalFreedBytes =>
        let s2 := purgeAssets trashedAssets s1
        let folders3 := (emptyTrashFolderOrder trashedFolders).foldl
          (fun fl d => fl.filter (fun f => !(f.id == d.id))) s2.folders
        let s3 := { s2 with folders := folders3 }
        (.ok (), updateStorageUsage uid (-totalFreedBytes) s3)

/-- `isDescendant(ancestorId, checkId)` of `moveFolder`: walk `checkId`'s
parent chain (rows looked up by id only) and report whether `ancestorId` is
encountered.  Fuel bounds the walk (the source recursion is unbounded). -/
def isDescendant (fs : List FolderRow) : Nat → Nat → Nat → Bool
  | 0, _, _ => false
  | fuel + 1, ancestorId, checkId =>
    match fs.find? (fun f => f.id == checkId) with
    | none => false
    | some checkFolder =>
      match checkFolder.parentId with
      | none => false
      | some pid => pid == ancestorId || isDescendant fs fuel ancestorId pid

/-- `moveFolder` (storage router in `packages/auth/src/index.ts`): the moved
folder must be active and owned by the caller; moving a folder to itself is
`BAD_REQUEST`; a non-null target must be an active folder of the caller
(else `NOT_FOUND`) and not a descendant of the moved folder (else
`BAD_REQUEST`); then the folder's `parentId` is updated. -/
def moveFolder (now uid fid : Nat) (newParentId : Option Nat) (s : State) :
    Except Err Unit × State :=
  match checkRateLimit now uid s with
  | (.error e, s1) => (.error e, s1)
  | (.ok _, s1) =>
    match s1.folders.find? (fun f => f.id == fid && f.userId == uid && f.deletedAt == none) with
    | none => (.error .notFound, s1)
    | some _ =>
      if newParentId == some fid then
        (.error .badRequest, s1)
      else
        let targetCheck : Except Err Unit :=
          match newParentId with
          | none => .ok ()
          | some pid =>
            match s1.folders.find? (fun f => f.id == pid && f.userId == uid && f.deletedAt == none) with
            | none => .error .notFound
            | some _ =>
              if isDescendant s1.folders s1.folders.length fid pid then
                .error .badRequest
              else
                .ok ()
        match targetCheck with
        | .error e => (.error e, s1)
        | .ok _ =>
          let folders2 := s1.folders.map (fun f =>
            if f.id == fid then { f with parentId := newParentId } else f)
          (.ok (), { s1 with folders := folders2 })

/-- A one-asset state (user 1 owns active asset 1) used to witness C10. -/
def stateW10 : State :=
  ⟨[], [⟨1, 0, 1, none, 9, none⟩], [], [], [], []⟩

/-- A state with one empty folder (id 1) and one folder (id 2) holding a
trashed asset, used to witness C9. -/
def stateW9 : State :=
  ⟨[], [⟨5, 0, 1, some 2, 9, some 3⟩],
    [⟨1, 0, 1, none, none⟩, ⟨2, 0, 1, none, none⟩], [], [], []⟩

/-- A one-asset state whose content object has a single reference, used to
witness C4. -/
def stateW4 : State :=
  ⟨[⟨9, 50, 9, 1⟩], [⟨1, 0, 1, none, 9, none⟩], [], [], [], [9]⟩

/-- State for the C2 counterexample: content hash 5 is already stored with
size 100 (one reference, held by user 7); user 1 has a fresh quota row. -/
def stateX2 : State :=
  ⟨[⟨5, 100, 5, 1⟩], [⟨10, 0, 7, none, 5, none⟩], [], [⟨1, 0, 1073741824, 2⟩], [], [5]⟩

/-- State used to witness the amended C2: user 1 already uses 40 bytes; hash
9 is present in the blob store and not yet stored. -/
def stateW2 : State :=
  ⟨[], [⟨1, 0, 1, none, 7, none⟩], [], [⟨1, 40, 1073741824, 2⟩], [], [9]⟩

/-- State for the C3 counterexample: user 1's quota is exhausted
(10 of 10 bytes used) and no rate window exists yet. -/
def stateX3 : State :=
  ⟨[], [], [], [⟨1, 10, 10, 2⟩], [], []⟩

/-- The parent pointer read through the table (row looked up by id, as in
`db.query.folders.findFirst({ where: eq(folders.id, ...) })`). -/
def parentOf (fs : List FolderRow) (fid : Nat) : Option Nat :=
  (fs.find? (fun f => f.id == fid)).bind (fun f => f.parentId)

/-- `c` walks `k` parent steps in `fs` starting from `c 0`. -/
def ParentChain (fs : List FolderRow) (c : Nat → Nat) (k : Nat) : Prop :=
  ∀ i < k, parentOf fs (c i) = some (c (i + 1))

/-- `a` is a proper ancestor of `b` in `fs`: a positive-length parent chain
leads from `b` up to `a` (equivalently, `b` is a descendant of `a`, reachable
from `a` via parent links read backwards). -/
def Ancestor (fs : List FolderRow) (a b : Nat) : Prop :=
  ∃ k c, 0 < k ∧ c 0 = b ∧ c k = a ∧ ParentChain fs c k

/-- The parent relation has no cycle. -/
def AcyclicParents (fs : List FolderRow) : Prop := ∀ a, ¬ Ancestor fs a a

/-- The folder ids are pairwise distinct (the id column is the primary
key). -/
abbrev NodupIds (fs : List FolderRow) : Prop := (fs.map (fun f => f.id)).Nodup

/-- State for the C5 counterexample and witness: active folder 1 owns trashed
child 2; folder 3 is an active child of 1. -/
def stateX5 : State :=
  ⟨[], [], [⟨1, 0, 1, none, none⟩, ⟨2, 0, 1, some 1, some 7⟩, ⟨3, 0, 1, some 1, none⟩],
    [], [], []⟩

/-- Decidable acyclicity certificate: a rank that strictly drops from child
to parent across the whole table. -/
def rankOk (rank : Nat → Nat) (fs : List FolderRow) : Bool :=
  fs.all (fun f => match f.parentId with
    | some p => decide (rank p < rank f.id)
    | none => true)

/-- State for the C8 counterexample: all four folders of user 1 are trashed;
folder 1 is the root, folders 2 and 3 its children, folder 4 a child of
folder 2 (so folder 4 has depth 2, folder 3 depth 1). -/
def stateX8 : State :=
  ⟨[], [],
    [⟨1, 0, 1, none, some 9⟩, ⟨2, 0, 1, some 1, some 9⟩,
     ⟨4, 0, 1, some 2, some 9⟩, ⟨3, 0, 1, some 1, some 9⟩],
    [], [], []⟩

/-- `y` lies in the trashed subtree of `r` for user `uid`: a parent chain of
trashed folder rows of the user leads from `y` up to `r`. -/
def TrashedDesc (fs : List FolderRow) (uid r y : Nat) : Prop :=
  ∃ k c, c 0 = y ∧ c k = r ∧ ParentChain fs c k ∧
    ∀ i < k, ∃ f ∈ fs, f.id = c i ∧ f.userId = uid ∧ f.deletedAt ≠ none

/-- State for the C6 counterexample: folder 1 (root) is trashed, its child
folder 2 is *active*, and folder 2's child folder 3 is trashed — all owned by
user 1. -/
def stateX6 : State :=
  ⟨[], [],
    [⟨1, 0, 1, none, some 5⟩, ⟨2, 0, 1, some 1, none⟩, ⟨3, 0, 1, some 2, some 5⟩],
    [], [], []⟩

/-- State witnessing the amended C6: trashed root folder 1 with trashed child
folder 2 holding trashed asset 7, all owned by user 1. -/
def stateW6 : State :=
  ⟨[], [⟨7, 0, 1, some 2, 9, some 4⟩],
    [⟨1, 0, 1, none, some 5⟩, ⟨2, 0, 1, some 1, some 5⟩], [], [], []⟩

/-- Number of `userAssets` rows — in any non-purged state, trashed or
active — whose `fileHash` is `h`. -/
def countRefs (assets : List AssetRow) (h : Nat) : Int :=
  ((assets.filter (fun a => a.fileHash == h)).length : Int)

/-- The dedup engine's inductive invariant over the `files` and `userAssets`
relations: both primary keys are duplicate-free, every asset's hash has a
backing `files` row, and every `files` row's reference count equals the
number of asset rows carrying its hash. -/
def RefInvOn (files : List FileRow) (assets : List AssetRow) : Prop :=
  (files.map (fun f => f.hash)).Nodup ∧
  (assets.map (fun a => a.id)).Nodup ∧
  (∀ a ∈ assets, ∃ f ∈ files, f.hash = a.fileHash) ∧
  (∀ f ∈ files, f.refCount = countRefs assets f.hash)

/-- The invariant read off a whole state. -/
def RefInv (s : State) : Prop := RefInvOn s.files s.userAssets

def stateC1 : State := ⟨[⟨9, 50, 9, 1⟩], [⟨1, 0, 1, none, 9, none⟩], [], [], [], [9]⟩

/-! ## Basic lemmas about the admission-control helpers -/

theorem checkRateLimit_tables (now uid : Nat) (s : State) :
    ((checkRateLimit now uid s).2).files = s.files ∧
    ((checkRateLimit now uid s).2).userAssets = s.userAssets ∧
    ((checkRateLimit now uid s).2).folders = s.folders ∧
    ((checkRateLimit now uid s).2).userQuotas = s.userQuotas ∧
    ((checkRateLimit now uid s).2).blobs = s.blobs := by
  unfold checkRateLimit
  dsimp only
  split
  · split <;> simp
  · simp

theorem injOn_of_nodup_map {f : α → β} {l : List α} (h : (l.map f).Nodup)
    {x y : α} (hx : x ∈ l) (hy : y ∈ l) (hf : f x = f y) : x = y := by
  induction l with
  | nil => cases hx
  | cons z zs ih =>
    simp only [List.map_cons, List.nodup_cons] at h
    rcases List.mem_cons.mp hx with rfl | hx' <;>
      rcases List.mem_cons.mp hy with rfl | hy'
    · rfl
    · exact absurd (hf ▸ List.mem_map_of_mem f hy') h.1
    · exact absurd (hf ▸ List.mem_map_of_mem f hx') h.1
    · exact ih h.2 hx' hy'

/-! ## C10: single-asset trash / restore are strict about lifecycle state -/

/-- C10: single-asset trash and restore require strict lifecycle states and
are not idempotent: trashing an already-trashed asset fails with `NOT_FOUND`
and changes nothing, restoring a non-trashed asset fails with `NOT_FOUND` and
changes nothing, and each succeeds exactly from the opposite state (the
asset's row gets its `deletedAt` set or cleared, every other row is kept). -/
theorem claim_C10 (s : State) (now uid aid : Nat) (a : AssetRow)
    (hnd : (s.userAssets.map (fun x => x.id)).Nodup)
    (ha : a ∈ s.userAssets) (haid : a.id = aid) (huid : a.userId = uid)
    (hrl : (checkRateLimit now uid s).1 = Except.ok ()) :
    (a.deletedAt ≠ none →
      (moveToTrash now uid aid s).1 = Except.error Err.notFound ∧
      ((moveToTrash now uid aid s).2).userAssets = s.userAssets ∧
      ((moveToTrash now uid aid s).2).files = s.files ∧
      ((moveToTrash now uid aid s).2).folders = s.folders ∧
      ((moveToTrash now uid aid s).2).userQuotas = s.userQuotas ∧
      ((moveToTrash now uid aid s).2).blobs = s.blobs) ∧
    (a.deletedAt = none →
      (restoreFromTrash now uid aid s).1 = Except.error Err.notFound ∧
      ((restoreFromTrash now uid aid s).2).userAssets = s.userAssets ∧
      ((restoreFromTrash now uid aid s).2).files = s.files ∧
      ((restoreFromTrash now uid aid s).2).folders = s.folders ∧
      ((restoreFromTrash now uid aid s).2).userQuotas = s.userQuotas ∧
      ((restoreFromTrash now uid aid s).2).blobs = s.blobs) ∧
    (a.deletedAt = none →
      (moveToTrash now uid aid s).1 = Except.ok () ∧
      { a with deletedAt := some now } ∈ ((moveToTrash now uid aid s).2).userAssets ∧
      ∀ b ∈ s.userAssets, b ≠ a → b ∈ ((moveToTrash now uid aid s).2).userAssets) ∧
    (a.deletedAt ≠ none →
      (restoreFromTrash now uid aid s).1 = Except.ok () ∧
      { a with deletedAt := none } ∈ ((restoreFromTrash now uid aid s).2).userAssets ∧
      ∀ b ∈ s.userAssets, b ≠ a → b ∈ ((restoreFromTrash now uid aid s).2).userAssets) := by
  rcases hck : checkRateLimit now uid s with ⟨r, s1⟩
  rw [hck] at hrl
  dsimp only at hrl
  subst hrl
  have ht := checkRateLimit_tables now uid s
  rw [hck] at ht
  obtain ⟨htf, hta, htd, htq, htb⟩ := ht
  dsimp only at htf hta htd htq htb
  have hother : ∀ b ∈ s.userAssets, b ≠ a → ¬(b.id = aid ∧ b.userId = uid) := by
    intro b hb hne hc
    exact hne (injOn_of_nodup_map hnd hb ha (by rw [hc.1, haid]))
  refine ⟨?_, ?_, ?_, ?_⟩
  · intro htr
    have hany : (s.userAssets.any
        (fun x => x.id == aid && x.userId == uid && x.deletedAt == none)) = false := by
      rw [List.any_eq_false]
      intro x hx
      by_cases hxa : x = a
      · subst hxa
        simp [htr]
      · by_cases h1 : x.id = aid
        · by_cases h2 : x.userId = uid
          · exact absurd ⟨h1, h2⟩ (hother x hx hxa)
          · simp [h2]
        · simp [h1]
    simp only [moveToTrash, hck, hta, hany]
    simp [htf, hta, htd, htq, htb]
  · intro hac
    have hany : (s.userAssets.any
        (fun x => x.id == aid && x.userId == uid && x.deletedAt != none)) = false := by
      rw [List.any_eq_false]
      intro x hx
      by_cases hxa : x = a
      · subst hxa
        simp [hac]
      · by_cases h1 : x.id = aid
        · by_cases h2 : x.userId = uid
          · exact absurd ⟨h1, h2⟩ (hother x hx hxa)
          · simp [h2]
        · simp [h1]
    simp only [restoreFromTrash, hck, hta, hany]
    simp [htf, hta, htd, htq, htb]
  · intro hac
    have hpa : (a.id == aid && a.userId == uid && a.deletedAt == none) = true := by
      simp [haid, huid, hac]
    have hany : (s.userAssets.any
        (fun x => x.id == aid && x.userId == uid && x.deletedAt == none)) = true :=
      List.any_eq_true.mpr ⟨a, ha, hpa⟩
    simp only [moveToTrash, hck, hta, hany]
    refine ⟨by simp, ?_, ?_⟩
    · simp only [if_true]
      exact List.mem_map.mpr ⟨a, ha, by rw [hpa]; simp⟩
    · intro b hb hne
      refine List.mem_map.mpr ⟨b, hb, ?_⟩
      have hbf : (b.id == aid && b.userId == uid && b.deletedAt == none) = false := by
        by_cases h1 : b.id = aid
        · by_cases h2 : b.userId = uid
          · exact absurd ⟨h1, h2⟩ (hother b hb hne)
          · simp [h2]
        · simp [h1]
      rw [hbf]
      simp
  · intro htr
    have hpa : (a.id == aid && a.userId == uid && a.deletedAt != none) = true := by
      simp [haid, huid, htr, bne_iff_ne]
    have hany : (s.userAssets.any
        (fun x => x.id == aid && x.userId == uid && x.deletedAt != none)) = true :=
      List.any_eq_true.mpr ⟨a, ha, hpa⟩
    simp only [restoreFromTrash, hck, hta, hany]
    refine ⟨by simp, ?_, ?_⟩
    · simp only [if_true]
      exact List.mem_map.mpr ⟨a, ha, by rw [hpa]; simp⟩
    · intro b hb hne
      refine List.mem_map.mpr ⟨b, hb, ?_⟩
      have hbf : (b.id == aid && b.userId == uid && b.deletedAt != none) = false := by
        by_cases h1 : b.id = aid
        · by_cases h2 : b.userId = uid
          · exact absurd ⟨h1, h2⟩ (hother b hb hne)
          · simp [h2]
        · simp [h1]
      rw [hbf]
      simp

theorem claim_C10_witness :
    (restoreFromTrash 0 1 1 stateW10).1 = Except.error Err.notFound ∧
    (moveToTrash 0 1 1 stateW10).1 = Except.ok () := by
  have h := claim_C10 stateW10 0 1 1 ⟨1, 0, 1, none, 9, none⟩ (by decide)
    (by decide) rfl rfl rfl
  exact ⟨(h.2.1 rfl).1, (h.2.2.1 rfl).1⟩

/-! ## C9: the strict (non-trash) folder delete counts trashed rows -/

/-- C9: `deleteFolder` treats trashed contents as non-emptiness: when any
`userAssets` row names the folder or any `folders` row names it as parent —
in any lifecycle state, trashed included — the delete fails with
`PRECONDITION_FAILED` and deletes nothing; when no such row exists in any
state, it succeeds and deletes exactly the folder's row. -/
theorem claim_C9 (s : State) (now uid fid : Nat) (f : FolderRow)
    (hf : s.folders.find? (fun x => x.id == fid && x.userId == uid) = some f)
    (hrl : (checkRateLimit now uid s).1 = Except.ok ()) :
    ((∃ a ∈ s.userAssets, a.folderId = some fid) ∨
        (∃ g ∈ s.folders, g.parentId = some fid) →
      (deleteFolder now uid fid s).1 = Except.error Err.preconditionFailed ∧
      ((deleteFolder now uid fid s).2).userAssets = s.userAssets ∧
      ((deleteFolder now uid fid s).2).files = s.files ∧
      ((deleteFolder now uid fid s).2).folders = s.folders ∧
      ((deleteFolder now uid fid s).2).userQuotas = s.userQuotas ∧
      ((deleteFolder now uid fid s).2).blobs = s.blobs) ∧
    ((∀ a ∈ s.userAssets, a.folderId ≠ some fid) →
        (∀ g ∈ s.folders, g.parentId ≠ some fid) →
      (deleteFolder now uid fid s).1 = Except.ok () ∧
      ((deleteFolder now uid fid s).2).folders =
        s.folders.filter (fun g => !(g.id == fid)) ∧
      ((deleteFolder now uid fid s).2).userAssets = s.userAssets ∧
      ((deleteFolder now uid fid s).2).files = s.files ∧
      ((deleteFolder now uid fid s).2).userQuotas = s.userQuotas ∧
      ((deleteFolder now uid fid s).2).blobs = s.blobs) := by
  rcases hck : checkRateLimit now uid s with ⟨r, s1⟩
  rw [hck] at hrl
  dsimp only at hrl
  subst hrl
  have ht := checkRateLimit_tables now uid s
  rw [hck] at ht
  obtain ⟨htf, hta, htd, htq, htb⟩ := ht
  dsimp only at htf hta htd htq htb
  constructor
  · intro hne
    have hcond : (s.userAssets.any (fun a => a.folderId == some fid) ||
        s.folders.any (fun g => g.parentId == some fid)) = true := by
      rcases hne with ⟨a, haa, hfa⟩ | ⟨g, hgg, hgp⟩
      · rw [List.any_eq_true.mpr ⟨a, haa, by simp [hfa]⟩]
        rfl
      · rw [List.any_eq_true.mpr ⟨g, hgg, by simp [hgp]⟩]
        simp
    simp only [deleteFolder, hck, hta, htd, hf, hcond]
    simp [htf, hta, htd, htq, htb]
  · intro hna hng
    have hcond : (s.userAssets.any (fun a => a.folderId == some fid) ||
        s.folders.any (fun g => g.parentId == some fid)) = false := by
      rw [Bool.or_eq_false_iff]
      constructor
      · rw [List.any_eq_false]
        intro a haa
        simp [hna a haa]
      · rw [List.any_eq_false]
        intro g hgg
        simp [hng g hgg]
    simp only [deleteFolder, hck, hta, htd, hf, hcond]
    simp [htf, hta, htd, htq, htb]

theorem claim_C9_witness :
    (deleteFolder 0 1 2 stateW9).1 = Except.error Err.preconditionFailed ∧
    ((deleteFolder 0 1 2 stateW9).2).folders = stateW9.folders := by
  have h := claim_C9 stateW9 0 1 2 ⟨2, 0, 1, none, none⟩ (by decide) rfl
  have h1 := h.1 (Or.inl ⟨⟨5, 0, 1, some 2, 9, some 3⟩, by decide, by decide⟩)
  exact ⟨h1.1, h1.2.2.2.1⟩

/-! ## C7: fixed-window rate limiter at the boundary -/

theorem updateFirst_append_none {p : α → Bool} {g : α → α} {l1 l2 : List α}
    (h : ∀ x ∈ l1, ¬ p x) : updateFirst p g (l1 ++ l2) = l1 ++ updateFirst p g l2 := by
  induction l1 with
  | nil => rfl
  | cons x xs ih =>
    have hx : p x = false := by
      have := h x (List.mem_cons_self x xs)
      simpa using this
    simp [updateFirst, hx, ih (fun y hy => h y (List.mem_cons_of_mem x hy))]

/-- C7: with an effective per-user limit of 2 and no window row yet, two
requests in the same 1-second window succeed — the first inserting the window
row at count 1, the second incrementing it to 2 — a third request in the same
window fails with `TOO_MANY_REQUESTS` and leaves the state (hence the count)
untouched, and a request falling in the next window succeeds again. -/
theorem claim_C7 (s : State) (uid t1 t2 t3 t4 w : Nat)
    (hlim : effRateLimit uid s = 2)
    (hnone : ∀ v ∈ s.rateLimitWindows, v.userId ≠ uid)
    (hw1 : t1 / 1000 * 1000 = w) (hw2 : t2 / 1000 * 1000 = w)
    (hw3 : t3 / 1000 * 1000 = w) (hw4 : t4 / 1000 * 1000 = w + 1000) :
    (checkRateLimit t1 uid s).1 = Except.ok () ∧
    windowCount uid w ((checkRateLimit t1 uid s).2) = 1 ∧
    (checkRateLimit t2 uid ((checkRateLimit t1 uid s).2)).1 = Except.ok () ∧
    windowCount uid w ((checkRateLimit t2 uid ((checkRateLimit t1 uid s).2)).2) = 2 ∧
    (checkRateLimit t3 uid
        ((checkRateLimit t2 uid ((checkRateLimit t1 uid s).2)).2)).1 =
      Except.error Err.tooManyRequests ∧
    (checkRateLimit t3 uid
        ((checkRateLimit t2 uid ((checkRateLimit t1 uid s).2)).2)).2 =
      (checkRateLimit t2 uid ((checkRateLimit t1 uid s).2)).2 ∧
    (checkRateLimit t4 uid
        ((checkRateLimit t2 uid ((checkRateLimit t1 uid s).2)).2)).1 = Except.ok () := by
  have hmod1 := Nat.div_add_mod t1 1000
  have hlt1 : t1 % 1000 < 1000 := Nat.mod_lt t1 (by norm_num)
  have hw1' : w ≤ t1 ∧ t1 < w + 1000 := by omega
  have hfind1 : s.rateLimitWindows.find?
      (fun v => v.userId == uid && v.windowStart == w) = none := by
    rw [List.find?_eq_none]
    intro v hv
    simp [hnone v hv]
  have hstep1 : checkRateLimit t1 uid s =
      (Except.ok (), { s with rateLimitWindows := s.rateLimitWindows ++ [⟨uid, w, 1⟩] }) := by
    unfold checkRateLimit
    rw [show t1 / RATE_LIMIT_WINDOW_MS * RATE_LIMIT_WINDOW_MS = w from hw1]
    dsimp only
    rw [hfind1]
    dsimp only
    congr 1
    rw [List.filter_append]
    have h1 : s.rateLimitWindows.filter
        (fun v => !(v.userId == uid && v.windowStart < t1 - 60000)) = s.rateLimitWindows := by
      rw [List.filter_eq_self]
      intro v hv
      simp [hnone v hv]
    have h2 : ([(⟨uid, w, 1⟩ : RateWindowRow)].filter
        (fun v => !(v.userId == uid && v.windowStart < t1 - 60000))) = [⟨uid, w, 1⟩] := by
      simp only [List.filter_cons, List.filter_nil]
      have : ¬ (w < t1 - 60000) := by omega
      simp [this]
    rw [h1, h2]
  set s1 : State := { s with rateLimitWindows := s.rateLimitWindows ++ [⟨uid, w, 1⟩] } with hs1
  have hfind2 : s1.rateLimitWindows.find?
      (fun v => v.userId == uid && v.windowStart == w) = some ⟨uid, w, 1⟩ := by
    rw [hs1]
    dsimp only
    rw [List.find?_append, hfind1]
    simp
  have hlim1 : effRateLimit uid s1 = 2 := by
    rw [hs1]
    unfold effRateLimit at hlim ⊢
    exact hlim
  have hstep2 : checkRateLimit t2 uid s1 =
      (Except.ok (), { s1 with rateLimitWindows := s.rateLimitWindows ++ [⟨uid, w, 2⟩] }) := by
    unfold checkRateLimit
    rw [show t2 / RATE_LIMIT_WINDOW_MS * RATE_LIMIT_WINDOW_MS = w from hw2]
    dsimp only
    rw [hfind2, hlim1]
    dsimp only
    rw [if_neg (by norm_num)]
    congr 2
    show updateFirst _ _ (s.rateLimitWindows ++ [⟨uid, w, 1⟩]) = _
    rw [updateFirst_append_none (by intro x hx; simp [hnone x hx])]
    simp [updateFirst]
  set s2 : State := { s1 with rateLimitWindows := s.rateLimitWindows ++ [⟨uid, w, 2⟩] } with hs2
  have hfind3 : s2.rateLimitWindows.find?
      (fun v => v.userId == uid && v.windowStart == w) = some ⟨uid, w, 2⟩ := by
    rw [hs2]
    dsimp only
    rw [List.find?_append, hfind1]
    simp
  have hlim2 : effRateLimit uid s2 = 2 := by
    rw [hs2]
    unfold effRateLimit at hlim ⊢
    exact hlim
  have hstep3 : checkRateLimit t3 uid s2 = (Except.error Err.tooManyRequests, s2) := by
    unfold checkRateLimit
    rw [show t3 / RATE_LIMIT_WINDOW_MS * RATE_LIMIT_WINDOW_MS = w from hw3]
    dsimp only
    rw [hfind3, hlim2]
    dsimp only
    rw [if_pos (by norm_num)]
  have hfind4 : s2.rateLimitWindows.find?
      (fun v => v.userId == uid && v.windowStart == (w + 1000)) = none := by
    rw [hs2]
    dsimp only
    rw [List.find?_eq_none]
    intro v hv
    rcases List.mem_append.mp hv with hv' | hv'
    · simp [hnone v hv']
    · simp only [List.mem_singleton] at hv'
      subst hv'
      simp
  have hstep4 : (checkRateLimit t4 uid s2).1 = Except.ok () := by
    unfold checkRateLimit
    rw [show t4 / RATE_LIMIT_WINDOW_MS * RATE_LIMIT_WINDOW_MS = w + 1000 from hw4]
    dsimp only
    rw [hfind4]
  have hcount1 : windowCount uid w s1 = 1 := by
    unfold windowCount
    rw [hfind2]
  have hcount2 : windowCount uid w s2 = 2 := by
    unfold windowCount
    rw [hfind3]
  rw [hstep1]
  dsimp only
  rw [hstep2]
  dsimp only
  rw [hstep3]
  dsimp only
  exact ⟨rfl, hcount1, rfl, hcount2, rfl, rfl, hstep4⟩

theorem claim_C7_witness :
    (checkRateLimit 100 1 stateW10).1 = Except.ok () ∧
    windowCount 1 0 ((checkRateLimit 100 1 stateW10).2) = 1 ∧
    (checkRateLimit 200 1 ((checkRateLimit 100 1 stateW10).2)).1 = Except.ok () ∧
    windowCount 1 0 ((checkRateLimit 200 1 ((checkRateLimit 100 1 stateW10).2)).2) = 2 ∧
    (checkRateLimit 300 1
        ((checkRateLimit 200 1 ((checkRateLimit 100 1 stateW10).2)).2)).1 =
      Except.error Err.tooManyRequests ∧
    (checkRateLimit 300 1
        ((checkRateLimit 200 1 ((checkRateLimit 100 1 stateW10).2)).2)).2 =
      (checkRateLimit 200 1 ((checkRateLimit 100 1 stateW10).2)).2 ∧
    (checkRateLimit 1100 1
        ((checkRateLimit 200 1 ((checkRateLimit 100 1 stateW10).2)).2)).1 = Except.ok () :=
  claim_C7 stateW10 1 100 200 300 1100 0 (by decide) (by decide)
    (by decide) (by decide) (by decide) (by decide)

/-! ## C4: reference release frees row and blob exactly at zero -/

theorem updateStorageUsage_tables (uid : Nat) (d : Int) (s : State) :
    (updateStorageUsage uid d s).files = s.files ∧
    (updateStorageUsage uid d s).userAssets = s.userAssets ∧
    (updateStorageUsage uid d s).folders = s.folders ∧
    (updateStorageUsage uid d s).blobs = s.blobs ∧
    (updateStorageUsage uid d s).rateLimitWindows = s.rateLimitWindows := by
  unfold updateStorageUsage
  split <;> simp

theorem find?_decrement (l : List FileRow) (h : Nat) (f : FileRow)
    (hf : l.find? (fun x => x.hash == h) = some f) :
    (l.map (fun x => if x.hash == h then { x with refCount := x.refCount - 1 } else x)).find?
        (fun x => x.hash == h) = some { f with refCount := f.refCount - 1 } := by
  induction l with
  | nil => simp at hf
  | cons x xs ih =>
    by_cases hx : x.hash = h
    · rw [List.find?_cons_of_pos _ (by simp [hx])] at hf
      injection hf with hf
      subst hf
      rw [List.map_cons, if_pos (by simp [hx])]
      exact List.find?_cons_of_pos _ (by simp [hx])
    · rw [List.find?_cons_of_neg _ (by simp [hx])] at hf
      rw [List.map_cons, if_neg (by simp [hx])]
      rw [List.find?_cons_of_neg _ (by simp [hx])]
      exact ih hf

/-- What `purgeAssetTx` does to `files` and `blobs`, given the first `files`
row carrying the hash.  At old count 1 the row and the blob key disappear; at
a larger count the row survives with the count decremented and the blob store
is untouched. -/
theorem purgeAssetTx_files (s : State) (aid h : Nat) (f : FileRow)
    (hf : s.files.find? (fun x => x.hash == h) = some f) (hrc : 1 ≤ f.refCount) :
    (f.refCount = 1 →
      (∀ g ∈ (purgeAssetTx aid h s).files, g.hash ≠ h) ∧
      f.path ∉ (purgeAssetTx aid h s).blobs) ∧
    (1 < f.refCount →
      { f with refCount := f.refCount - 1 } ∈ (purgeAssetTx aid h s).files ∧
      (∀ g ∈ s.files, g.hash ≠ h → g ∈ (purgeAssetTx aid h s).files) ∧
      (purgeAssetTx aid h s).blobs = s.blobs) := by
  have hfind := find?_decrement s.files h f hf
  constructor
  · intro h1
    have hle : ({ f with refCount := f.refCount - 1 } : FileRow).refCount ≤ 0 := by
      simp [h1]
    have hshape : purgeAssetTx aid h s =
        { s with
          userAssets := s.userAssets.filter (fun a => !(a.id == aid)),
          files := (s.files.map (fun x =>
            if x.hash == h then { x with refCount := x.refCount - 1 } else x)).filter
              (fun x => !(x.hash == h)),
          blobs := s.blobs.filter (fun k => !(k == f.path)) } := by
      unfold purgeAssetTx
      dsimp only
      rw [hfind]
      dsimp only
      rw [if_pos hle]
    rw [hshape]
    constructor
    · intro g hg
      have := List.of_mem_filter hg
      simpa using this
    · intro hmem
      have := List.of_mem_filter hmem
      simp at this
  · intro h1
    have hle : ¬ ({ f with refCount := f.refCount - 1 } : FileRow).refCount ≤ 0 := by
      dsimp only
      omega
    have hshape : purgeAssetTx aid h s =
        { s with
          userAssets := s.userAssets.filter (fun a => !(a.id == aid)),
          files := s.files.map (fun x =>
            if x.hash == h then { x with refCount := x.refCount - 1 } else x) } := by
      unfold purgeAssetTx
      dsimp only
      rw [hfind]
      dsimp only
      rw [if_neg hle]
    rw [hshape]
    refine ⟨?_, ?_, rfl⟩
    · have hfm := List.mem_of_find?_eq_some hf
      have hpf : (f.hash == h) = true := by
        have := List.find?_some hf
        simpa using this
      exact List.mem_map.mpr ⟨f, hfm, by simp [hpf]⟩
    · intro g hg hgh
      exact List.mem_map.mpr ⟨g, hg, by simp [hgh]⟩

theorem purgeAssetTx_rest (s : State) (aid h : Nat) :
    (purgeAssetTx aid h s).folders = s.folders ∧
    (purgeAssetTx aid h s).userQuotas = s.userQuotas ∧
    (purgeAssetTx aid h s).rateLimitWindows = s.rateLimitWindows ∧
    (purgeAssetTx aid h s).userAssets = s.userAssets.filter (fun a => !(a.id == aid)) := by
  unfold purgeAssetTx
  dsimp only
  split
  · split <;> simp
  · simp

/-- C4: purging an Asset (single-asset delete of `deleteAsset`, or permanent
delete of `permanentlyDelete`) decrements its ContentObject's reference count
by one, and deletes the `files` row together with its blob-store key exactly
when the decremented count reaches zero: at old count 1 both disappear, at a
larger count the row survives with count one less and the blob store is
untouched. -/
theorem claim_C4 (s : State) (now uid aid : Nat) (a : AssetRow) (f : FileRow)
    (hrc : 1 ≤ f.refCount)
    (hrl : (checkRateLimit now uid s).1 = Except.ok ()) :
    (s.userAssets.find? (fun x => x.id == aid && x.userId == uid) = some a →
      s.files.find? (fun x => x.hash == a.fileHash) = some f →
      (deleteAsset now uid aid s).1 = Except.ok () ∧
      (f.refCount = 1 →
        (∀ g ∈ ((deleteAsset now uid aid s).2).files, g.hash ≠ a.fileHash) ∧
        f.path ∉ ((deleteAsset now uid aid s).2).blobs) ∧
      (1 < f.refCount →
        { f with refCount := f.refCount - 1 } ∈ ((deleteAsset now uid aid s).2).files ∧
        (∀ g ∈ s.files, g.hash ≠ a.fileHash → g ∈ ((deleteAsset now uid aid s).2).files) ∧
        ((deleteAsset now uid aid s).2).blobs = s.blobs)) ∧
    (s.userAssets.find? (fun x => x.id == aid && x.userId == uid && x.deletedAt != none) = some a →
      s.files.find? (fun x => x.hash == a.fileHash) = some f →
      (permanentlyDelete now uid aid s).1 = Except.ok () ∧
      (f.refCount = 1 →
        (∀ g ∈ ((permanentlyDelete now uid aid s).2).files, g.hash ≠ a.fileHash) ∧
        f.path ∉ ((permanentlyDelete now uid aid s).2).blobs) ∧
      (1 < f.refCount →
        { f with refCount := f.refCount - 1 } ∈ ((permanentlyDelete now uid aid s).2).files ∧
        (∀ g ∈ s.files, g.hash ≠ a.fileHash → g ∈ ((permanentlyDelete now uid aid s).2).files) ∧
        ((permanentlyDelete now uid aid s).2).blobs = s.blobs)) := by
  rcases hck : checkRateLimit now uid s with ⟨r, s1⟩
  rw [hck] at hrl
  dsimp only at hrl
  subst hrl
  have ht := checkRateLimit_tables now uid s
  rw [hck] at ht
  obtain ⟨htf, hta, htd, htq, htb⟩ := ht
  dsimp only at htf hta htd htq htb
  constructor
  · intro hfa hff
    have hfa1 : s1.userAssets.find? (fun x => x.id == aid && x.userId == uid) = some a := by
      rw [hta, hfa]
    have hff1 : s1.files.find? (fun x => x.hash == a.fileHash) = some f := by
      rw [htf, hff]
    have hp := purgeAssetTx_files s1 aid a.fileHash f hff1 hrc
    have hu := updateStorageUsage_tables uid (-f.size) (purgeAssetTx aid a.fileHash s1)
    simp only [deleteAsset, hck, hfa1, hff1]
    refine ⟨by simp, ?_, ?_⟩
    · intro h1
      obtain ⟨hrow, hblob⟩ := hp.1 h1
      refine ⟨?_, ?_⟩
      · intro g hg
        exact hrow g (by rw [hu.1] at hg; exact hg)
      · rw [hu.2.2.2.1]
        exact hblob
    · intro h1
      obtain ⟨hrow, hkeep, hblob⟩ := hp.2 h1
      refine ⟨?_, ?_, ?_⟩
      · rw [hu.1]
        exact hrow
      · intro g hg hgh
        rw [hu.1]
        exact hkeep g (by rw [htf]; exact hg) hgh
      · rw [hu.2.2.2.1, hblob, htb]
  · intro hfa hff
    have hfa1 : s1.userAssets.find?
        (fun x => x.id == aid && x.userId == uid && x.deletedAt != none) = some a := by
      rw [hta, hfa]
    have hff1 : s1.files.find? (fun x => x.hash == a.fileHash) = some f := by
      rw [htf, hff]
    have hp := purgeAssetTx_files s1 aid a.fileHash f hff1 hrc
    have hu := updateStorageUsage_tables uid (-f.size) (purgeAssetTx aid a.fileHash s1)
    simp only [permanentlyDelete, hck, hfa1, hff1]
    refine ⟨by simp, ?_, ?_⟩
    · intro h1
      obtain ⟨hrow, hblob⟩ := hp.1 h1
      refine ⟨?_, ?_⟩
      · intro g hg
        exact hrow g (by rw [hu.1] at hg; exact hg)
      · rw [hu.2.2.2.1]
        exact hblob
    · intro h1
      obtain ⟨hrow, hkeep, hblob⟩ := hp.2 h1
      refine ⟨?_, ?_, ?_⟩
      · rw [hu.1]
        exact hrow
      · intro g hg hgh
        rw [hu.1]
        exact hkeep g (by rw [htf]; exact hg) hgh
      · rw [hu.2.2.2.1, hblob, htb]

theorem claim_C4_witness :
    (deleteAsset 0 1 1 stateW4).1 = Except.ok () ∧
    (∀ g ∈ ((deleteAsset 0 1 1 stateW4).2).files, g.hash ≠ 9) ∧
    (9 : Nat) ∉ ((deleteAsset 0 1 1 stateW4).2).blobs := by
  have h := claim_C4 stateW4 0 1 1 ⟨1, 0, 1, none, 9, none⟩ ⟨9, 50, 9, 1⟩ (by decide) rfl
  have h1 := h.1 rfl rfl
  exact ⟨h1.1, (h1.2.1 rfl).1, (h1.2.1 rfl).2⟩

/-! ## Structural inversion lemmas for the upload / purge procedures -/

theorem confirmUpload_ok {now uid fname : Nat} {size : Int} {hash : Nat}
    {folderId : Option Nat} {newId : Nat} {s s' : State}
    (h : confirmUpload now uid fname size hash folderId newId s = (Except.ok (), s')) :
    ∃ s1, checkRateLimit now uid s = (Except.ok (), s1) ∧
      s1.blobs.contains hash = true ∧
      s' = updateStorageUsage uid size
        { s1 with files := upsertFiles hash size s1.files,
                  userAssets := s1.userAssets ++ [⟨newId, fname, uid, folderId, hash, none⟩] } := by
  rcases hck : checkRateLimit now uid s with ⟨r, s1⟩
  cases r with
  | error e =>
    unfold confirmUpload at h
    rw [hck] at h
    simp at h
  | ok u =>
    cases u
    unfold confirmUpload at h
    rw [hck] at h
    dsimp only at h
    by_cases hb : s1.blobs.contains hash = true
    · rw [if_pos hb] at h
      refine ⟨s1, rfl, hb, ?_⟩
      injection h with h1 h2
      exact h2.symm
    · rw [if_neg hb] at h
      simp at h

theorem deleteAsset_ok {now uid aid : Nat} {s s' : State}
    (h : deleteAsset now uid aid s = (Except.ok (), s')) :
    ∃ s1 a f, checkRateLimit now uid s = (Except.ok (), s1) ∧
      s1.userAssets.find? (fun x => x.id == aid && x.userId == uid) = some a ∧
      s1.files.find? (fun x => x.hash == a.fileHash) = some f ∧
      s' = updateStorageUsage uid (-f.size) (purgeAssetTx aid a.fileHash s1) := by
  rcases hck : checkRateLimit now uid s with ⟨r, s1⟩
  cases r with
  | error e =>
    unfold deleteAsset at h
    rw [hck] at h
    simp at h
  | ok u =>
    cases u
    unfold deleteAsset at h
    rw [hck] at h
    dsimp only at h
    rcases hfa : s1.userAssets.find? (fun x => x.id == aid && x.userId == uid) with _ | a
    · rw [hfa] at h
      simp at h
    · rw [hfa] at h
      dsimp only at h
      rcases hff : s1.files.find? (fun x => x.hash == a.fileHash) with _ | f
      · rw [hff] at h
        simp at h
      · rw [hff] at h
        refine ⟨s1, a, f, rfl, hfa, hff, ?_⟩
        injection h with h1 h2
        exact h2.symm

theorem find?_increment (l : List FileRow) (h : Nat) (f : FileRow)
    (hf : l.find? (fun x => x.hash == h) = some f) :
    (l.map (fun x => if x.hash == h then { x with refCount := x.refCount + 1 } else x)).find?
        (fun x => x.hash == h) = some { f with refCount := f.refCount + 1 } := by
  induction l with
  | nil => simp at hf
  | cons x xs ih =>
    by_cases hx : x.hash = h
    · rw [List.find?_cons_of_pos _ (by simp [hx])] at hf
      injection hf with hf
      subst hf
      rw [List.map_cons, if_pos (by simp [hx])]
      exact List.find?_cons_of_pos _ (by simp [hx])
    · rw [List.find?_cons_of_neg _ (by simp [hx])] at hf
      rw [List.map_cons, if_neg (by simp [hx])]
      rw [List.find?_cons_of_neg _ (by simp [hx])]
      exact ih hf

/-- After the upsert there is always a first row carrying the hash, and its
size agrees with the declared size whenever every pre-existing row with the
hash recorded that size (in particular when the row is freshly inserted). -/
theorem find?_upsertFiles (l : List FileRow) (hash : Nat) (sz : Int)
    (hsz : ∀ f ∈ l, f.hash = hash → f.size = sz) :
    ∃ g, (upsertFiles hash sz l).find? (fun x => x.hash == hash) = some g ∧ g.size = sz := by
  unfold upsertFiles
  by_cases hany : l.any (fun f => f.hash == hash) = true
  · rw [if_pos hany]
    rcases hfq : l.find? (fun x => x.hash == hash) with _ | f0
    · rw [List.find?_eq_none] at hfq
      obtain ⟨x, hx, hpx⟩ := List.any_eq_true.mp hany
      exact absurd hpx (hfq x hx)
    · refine ⟨{ f0 with refCount := f0.refCount + 1 }, find?_increment l hash f0 hfq, ?_⟩
      have hmem := List.mem_of_find?_eq_some hfq
      have hhash : f0.hash = hash := by
        have := List.find?_some hfq
        simpa using this
      exact hsz f0 hmem hhash
  · rw [if_neg hany]
    refine ⟨⟨hash, sz, hash, 1⟩, ?_, rfl⟩
    rw [List.find?_append]
    have hpre : l.find? (fun x => x.hash == hash) = none := by
      rw [List.find?_eq_none]
      intro x hx hpx
      exact hany (List.any_eq_true.mpr ⟨x, hx, hpx⟩)
    rw [hpre]
    simp

theorem find?_quota_update (l : List QuotaRow) (uid : Nat) (d : Int) (q : QuotaRow)
    (hq : l.find? (fun x => x.userId == uid) = some q) :
    (l.map (fun x => if x.userId == uid then
        { x with storageUsed := max 0 (x.storageUsed + d) } else x)).find?
      (fun x => x.userId == uid) =
      some { q with storageUsed := max 0 (q.storageUsed + d) } := by
  induction l with
  | nil => simp at hq
  | cons x xs ih =>
    by_cases hx : x.userId = uid
    · rw [List.find?_cons_of_pos _ (by simp [hx])] at hq
      injection hq with hq
      subst hq
      rw [List.map_cons, if_pos (by simp [hx])]
      exact List.find?_cons_of_pos _ (by simp [hx])
    · rw [List.find?_cons_of_neg _ (by simp [hx])] at hq
      rw [List.map_cons, if_neg (by simp [hx])]
      rw [List.find?_cons_of_neg _ (by simp [hx])]
      exact ih hq

/-- The upsert of `updateStorageUsage` realises
`storageUsed := GREATEST(0, storageUsed + delta)` on the user's row (reading
an absent row as 0). -/
theorem quotaUsed_updateStorageUsage (uid : Nat) (d : Int) (st : State) :
    quotaUsed uid (updateStorageUsage uid d st) = max 0 (quotaUsed uid st + d) := by
  unfold updateStorageUsage quotaUsed
  by_cases hany : st.userQuotas.any (fun q => q.userId == uid) = true
  · rw [if_pos hany]
    dsimp only
    rcases hfq : st.userQuotas.find? (fun x => x.userId == uid) with _ | q
    · rw [List.find?_eq_none] at hfq
      obtain ⟨x, hx, hpx⟩ := List.any_eq_true.mp hany
      exact absurd hpx (hfq x hx)
    · rw [find?_quota_update st.userQuotas uid d q hfq, hfq]
  · rw [if_neg hany]
    dsimp only
    have hpre : st.userQuotas.find? (fun x => x.userId == uid) = none := by
      rw [List.find?_eq_none]
      intro x hx hpx
      exact hany (List.any_eq_true.mpr ⟨x, hx, hpx⟩)
    rw [List.find?_append, hpre]
    simp

/-! ## C2: quota conservation -/

/-- C2 counterexample: user 1 dedup-links hash 5 declaring size 999 and is
charged 999; deleting that asset releases the *stored* size 100, so
`storageUsed` ends at 899 instead of returning to the pre-upload value 0 —
charging (by declared size) and release (by the `files` row's size) are not
exact inverses, and the charged bytes no longer equal any sum of declared
sizes of the user's assets (the user has none left). -/
theorem claim_C2_counterexample :
    quotaUsed 1 stateX2 = 0 ∧
    (getUploadPresignedUrl 0 1 0 999 5 none 11 stateX2).1 = Except.ok true ∧
    (deleteAsset 1 1 11 ((getUploadPresignedUrl 0 1 0 999 5 none 11 stateX2).2)).1 =
      Except.ok () ∧
    ((deleteAsset 1 1 11
        ((getUploadPresignedUrl 0 1 0 999 5 none 11 stateX2).2)).2).userAssets.filter
      (fun a => a.userId == 1) = [] ∧
    quotaUsed 1
      ((deleteAsset 1 1 11 ((getUploadPresignedUrl 0 1 0 999 5 none 11 stateX2).2)).2) = 899 ∧
    (899 : Int) ≠ 0 :=
  ⟨rfl, rfl, rfl, rfl, rfl, by decide⟩

/-- C2 amended: the release subtracts the size recorded on the `files` row,
not the size declared at upload; the two agree exactly when every stored row
with the hash records the declared size (in particular always on the
fresh-upload path).  Under that agreement — and with the user's usage
non-negative, as the `GREATEST(0, ...)` upsert keeps it — a confirmed upload
of declared size `sz` followed by purging that same asset returns
`storageUsed` exactly to its pre-upload value. -/
theorem claim_C2_amended (s : State) (now1 now2 uid fname : Nat) (sz : Int)
    (hash : Nat) (folderId : Option Nat) (newId : Nat) (s1 s2 : State)
    (hszpos : 0 < sz)
    (hq : 0 ≤ quotaUsed uid s)
    (hfresh : ∀ a ∈ s.userAssets, a.id ≠ newId)
    (hsz : ∀ f ∈ s.files, f.hash = hash → f.size = sz)
    (h1 : confirmUpload now1 uid fname sz hash folderId newId s = (Except.ok (), s1))
    (h2 : deleteAsset now2 uid newId s1 = (Except.ok (), s2)) :
    quotaUsed uid s2 = quotaUsed uid s := by
  obtain ⟨sa, hcka, hblob, hs1⟩ := confirmUpload_ok h1
  have hta := checkRateLimit_tables now1 uid s
  rw [hcka] at hta
  obtain ⟨htaf, htaa, htad, htaq, htab⟩ := hta
  dsimp only at htaf htaa htad htaq htab
  obtain ⟨sb, a, f, hckb, hfa, hff, hs2⟩ := deleteAsset_ok h2
  have htb := checkRateLimit_tables now2 uid s1
  rw [hckb] at htb
  obtain ⟨htbf, htba, htbd, htbq, htbb⟩ := htb
  dsimp only at htbf htba htbd htbq htbb
  have hmid := updateStorageUsage_tables uid sz
    { sa with files := upsertFiles hash sz sa.files,
              userAssets := sa.userAssets ++ [⟨newId, fname, uid, folderId, hash, none⟩] }
  have hs1assets : s1.userAssets = s.userAssets ++ [⟨newId, fname, uid, folderId, hash, none⟩] := by
    rw [hs1, hmid.2.1]
    dsimp only
    rw [htaa]
  have hs1files : s1.files = upsertFiles hash sz s.files := by
    rw [hs1, hmid.1]
    dsimp only
    rw [htaf]
  have hA : a = ⟨newId, fname, uid, folderId, hash, none⟩ := by
    have : sb.userAssets.find? (fun x => x.id == newId && x.userId == uid) =
        some ⟨newId, fname, uid, folderId, hash, none⟩ := by
      rw [htba, hs1assets, List.find?_append]
      have hpre : s.userAssets.find? (fun x => x.id == newId && x.userId == uid) = none := by
        rw [List.find?_eq_none]
        intro x hx
        simp [hfresh x hx]
      rw [hpre]
      simp
    rw [this] at hfa
    injection hfa with hfa
    exact hfa.symm
  have hfsz : f.size = sz := by
    obtain ⟨g, hg, hgsz⟩ := find?_upsertFiles s.files hash sz hsz
    have : sb.files.find? (fun x => x.hash == hash) = some g := by
      rw [htbf, hs1files]
      exact hg
    rw [hA] at hff
    dsimp only at hff
    rw [this] at hff
    injection hff with hff
    rw [hff] at hgsz
    exact hgsz
  have hqs1 : quotaUsed uid s1 = max 0 (quotaUsed uid s + sz) := by
    rw [hs1, quotaUsed_updateStorageUsage]
    congr 2
    unfold quotaUsed
    dsimp only
    rw [htaq]
  have hqpurge : quotaUsed uid (purgeAssetTx newId a.fileHash sb) = quotaUsed uid s1 := by
    unfold quotaUsed
    rw [(purgeAssetTx_rest sb newId a.fileHash).2.1, htbq]
  have hqs2 : quotaUsed uid s2 = max 0 (quotaUsed uid s1 + (-f.size)) := by
    rw [hs2, quotaUsed_updateStorageUsage, hqpurge]
  rw [hqs2, hqs1, hfsz]
  have h0 : max 0 (quotaUsed uid s + sz) = quotaUsed uid s + sz :=
    max_eq_right (by omega)
  rw [h0]
  have h1' : quotaUsed uid s + sz + -sz = quotaUsed uid s := by ring
  rw [h1']
  exact max_eq_right hq

theorem claim_C2_witness :
    quotaUsed 1
      ((deleteAsset 1 1 2 ((confirmUpload 0 1 0 50 9 none 2 stateW2).2)).2) =
      quotaUsed 1 stateW2 :=
  claim_C2_amended stateW2 0 1 1 0 50 9 none 2
    ((confirmUpload 0 1 0 50 9 none 2 stateW2).2)
    ((deleteAsset 1 1 2 ((confirmUpload 0 1 0 50 9 none 2 stateW2).2)).2)
    (by decide) (by decide) (by decide) (by decide) rfl rfl

/-! ## C3: admission-control ordering and failure atomicity of upload-confirm -/

theorem checkStorageQuota_tables (uid : Nat) (d : Int) (s : State) :
    ((checkStorageQuota uid d s).2).files = s.files ∧
    ((checkStorageQuota uid d s).2).userAssets = s.userAssets ∧
    ((checkStorageQuota uid d s).2).folders = s.folders ∧
    ((checkStorageQuota uid d s).2).blobs = s.blobs ∧
    ((checkStorageQuota uid d s).2).rateLimitWindows = s.rateLimitWindows ∧
    quotaUsed uid ((checkStorageQuota uid d s).2) = quotaUsed uid s := by
  unfold checkStorageQuota
  rcases hfq : s.userQuotas.find? (fun q => q.userId == uid) with _ | q
  · rw [hfq]
    dsimp only
    split
    · refine ⟨rfl, rfl, rfl, rfl, rfl, ?_⟩
      unfold quotaUsed
      dsimp only
      rw [List.find?_append, hfq]
      simp [hfq]
    · refine ⟨rfl, rfl, rfl, rfl, rfl, ?_⟩
      unfold quotaUsed
      dsimp only
      rw [List.find?_append, hfq]
      simp [hfq]
  · rw [hfq]
    dsimp only
    by_cases hlt : q.storageLimit < q.storageUsed + d
    · rw [if_pos hlt]
      exact ⟨rfl, rfl, rfl, rfl, rfl, rfl⟩
    · rw [if_neg hlt]
      exact ⟨rfl, rfl, rfl, rfl, rfl, rfl⟩

/-- C3 counterexample: a presign request for 5 declared bytes fails the quota
check — yet the rate-limit window table has already been mutated (the
middleware runs first and inserts the window row), so the quota check does
*not* happen before any mutation and the failed operation does *not* leave
the state unchanged. -/
theorem claim_C3_counterexample :
    (getUploadPresignedUrl 0 1 0 5 9 none 11 stateX3).1 = Except.error Err.payloadTooLarge ∧
    ((getUploadPresignedUrl 0 1 0 5 9 none 11 stateX3).2).rateLimitWindows ≠
      stateX3.rateLimitWindows :=
  ⟨rfl, by decide⟩

/-- C3 amended: the rate-limit gate (which mutates the window table) runs
*before* the quota check, and the quota check lives in the presign step while
`confirmUpload` performs none; apart from that the claimed order and
atomicity hold: a quota failure of the presign step charges nothing and
leaves files, assets, folders and blobs untouched (only the rate window
advanced); any failure of `confirmUpload` leaves files, assets, folders,
quotas and blobs untouched; and a successful `confirmUpload` requires the
blob to exist and performs exactly the upsert, the asset insert and the
usage charge `GREATEST(0, used + size)`. -/
theorem claim_C3_amended (s : State) (now uid fname : Nat) (size : Int) (hash : Nat)
    (folderId : Option Nat) (newId : Nat) :
    (∀ s', getUploadPresignedUrl now uid fname size hash folderId newId s =
        (Except.error Err.payloadTooLarge, s') →
      s'.files = s.files ∧ s'.userAssets = s.userAssets ∧ s'.folders = s.folders ∧
      s'.blobs = s.blobs ∧ quotaUsed uid s' = quotaUsed uid s ∧
      s'.rateLimitWindows = ((checkRateLimit now uid s).2).rateLimitWindows) ∧
    (∀ e s', confirmUpload now uid fname size hash folderId newId s = (Except.error e, s') →
      s'.files = s.files ∧ s'.userAssets = s.userAssets ∧ s'.folders = s.folders ∧
      s'.userQuotas = s.userQuotas ∧ s'.blobs = s.blobs) ∧
    (∀ s', confirmUpload now uid fname size hash folderId newId s = (Except.ok (), s') →
      s.blobs.contains hash = true ∧
      s'.userAssets = s.userAssets ++ [⟨newId, fname, uid, folderId, hash, none⟩] ∧
      s'.files = upsertFiles hash size s.files ∧
      quotaUsed uid s' = max 0 (quotaUsed uid s + size)) := by
  refine ⟨?_, ?_, ?_⟩
  · intro s' h
    rcases hck : checkRateLimit now uid s with ⟨r, sa⟩
    have hta := checkRateLimit_tables now uid s
    rw [hck] at hta
    obtain ⟨htaf, htaa, htad, htaq, htab⟩ := hta
    dsimp only at htaf htaa htad htaq htab
    cases r with
    | error e =>
      unfold getUploadPresignedUrl at h
      rw [hck] at h
      dsimp only at h
      injection h with h1 h2
      subst h2
      exact ⟨htaf, htaa, htad, htab, by unfold quotaUsed; rw [htaq], rfl⟩
    | ok u =>
      cases u
      unfold getUploadPresignedUrl at h
      rw [hck] at h
      dsimp only at h
      rcases hcq : checkStorageQuota uid size sa with ⟨rq, sq⟩
      have htq := checkStorageQuota_tables uid size sa
      rw [hcq] at htq
      obtain ⟨htqf, htqa, htqd, htqb, htqw, htqu⟩ := htq
      dsimp only at htqf htqa htqd htqb htqw htqu
      cases rq with
      | error eq =>
        rw [hcq] at h
        dsimp only at h
        injection h with h1 h2
        subst h2
        refine ⟨by rw [htqf, htaf], by rw [htqa, htaa], by rw [htqd, htad],
          by rw [htqb, htab], ?_, by rw [htqw]⟩
        rw [htqu]
        unfold quotaUsed
        rw [htaq]
      | ok uq =>
        cases uq
        rw [hcq] at h
        dsimp only at h
        rcases hff : sq.files.find? (fun f => f.hash == hash) with _ | ex
        · rw [hff] at h
          simp at h
        · rw [hff] at h
          dsimp only at h
          simp at h
  · intro e s' h
    rcases hck : checkRateLimit now uid s with ⟨r, sa⟩
    have hta := checkRateLimit_tables now uid s
    rw [hck] at hta
    obtain ⟨htaf, htaa, htad, htaq, htab⟩ := hta
    dsimp only at htaf htaa htad htaq htab
    cases r with
    | error e2 =>
      unfold confirmUpload at h
      rw [hck] at h
      dsimp only at h
      injection h with h1 h2
      subst h2
      exact ⟨htaf, htaa, htad, htaq, htab⟩
    | ok u =>
      cases u
      unfold confirmUpload at h
      rw [hck] at h
      dsimp only at h
      by_cases hb : sa.blobs.contains hash = true
      · rw [if_pos hb] at h
        simp at h
      · rw [if_neg hb] at h
        injection h with h1 h2
        subst h2
        exact ⟨htaf, htaa, htad, htaq, htab⟩
  · intro s' h
    obtain ⟨sa, hcka, hblob, hs'⟩ := confirmUpload_ok h
    have hta := checkRateLimit_tables now uid s
    rw [hcka] at hta
    obtain ⟨htaf, htaa, htad, htaq, htab⟩ := hta
    dsimp only at htaf htaa htad htaq htab
    have hmid := updateStorageUsage_tables uid size
      { sa with files := upsertFiles hash size sa.files,
                userAssets := sa.userAssets ++ [⟨newId, fname, uid, folderId, hash, none⟩] }
    refine ⟨by rw [← htab]; exact hblob, ?_, ?_, ?_⟩
    · rw [hs', hmid.2.1]
      dsimp only
      rw [htaa]
    · rw [hs', hmid.1]
      dsimp only
      rw [htaf]
    · rw [hs', quotaUsed_updateStorageUsage]
      congr 2
      unfold quotaUsed
      dsimp only
      rw [htaq]

theorem claim_C3_witness :
    stateW2.blobs.contains 9 = true ∧
    ((confirmUpload 0 1 0 50 9 none 2 stateW2).2).userAssets =
      stateW2.userAssets ++ [⟨2, 0, 1, none, 9, none⟩] ∧
    ((confirmUpload 0 1 0 50 9 none 2 stateW2).2).files = upsertFiles 9 50 stateW2.files ∧
    quotaUsed 1 ((confirmUpload 0 1 0 50 9 none 2 stateW2).2) =
      max 0 (quotaUsed 1 stateW2 + 50) :=
  (claim_C3_amended stateW2 0 1 0 50 9 none 2).2.2
    ((confirmUpload 0 1 0 50 9 none 2 stateW2).2) rfl

/-! ## Parent chains in the folder table

`moveFolder`'s `isDescendant`, the recursive collectors, and the
deepest-first deletion orders all walk the `parentId` relation; the claims
about them speak about reachability through parent links, formalised here as
parent chains. -/

theorem find?_key {α β : Type} (key : α → β) {l : List α}
    (hnd : (l.map key).Nodup) {x : α} (hx : x ∈ l)
    {p : α → Bool} (hp : p x = true) (hkey : ∀ y, p y = true → key y = key x) :
    l.find? p = some x := by
  induction l with
  | nil => cases hx
  | cons z zs ih =>
    by_cases hz : p z = true
    · rw [List.find?_cons_of_pos _ hz]
      have : z = x := injOn_of_nodup_map hnd (List.mem_cons_self z zs) hx (hkey z hz)
      rw [this]
    · rw [List.find?_cons_of_neg _ (by simp [hz])]
      rcases List.mem_cons.mp hx with rfl | hx'
      · exact absurd hp hz
      · simp only [List.map_cons, List.nodup_cons] at hnd
        exact ih hnd.2 hx'

theorem parentOf_of_mem {fs : List FolderRow} (hnd : NodupIds fs) {f : FolderRow}
    (hf : f ∈ fs) : parentOf fs f.id = f.parentId := by
  unfold parentOf
  rw [find?_key (fun g => g.id) hnd hf (by simp) (by intro y hy; simpa using hy)]
  rfl

theorem chain_deterministic {fs : List FolderRow} {c c' : Nat → Nat} {k k' : Nat}
    (h : ParentChain fs c k) (h' : ParentChain fs c' k') (h0 : c 0 = c' 0) :
    ∀ i, i ≤ k → i ≤ k' → c i = c' i := by
  intro i
  induction i with
  | zero => intro _ _; exact h0
  | succ n ih =>
    intro hk hk'
    have hn := ih (by omega) (by omega)
    have e1 := h n (by omega)
    have e2 := h' n (by omega)
    rw [hn] at e1
    rw [e1] at e2
    injection e2

theorem ancestor_step {fs : List FolderRow} {a b : Nat}
    (h : parentOf fs b = some a) : Ancestor fs a b := by
  refine ⟨1, fun i => if i = 0 then b else a, Nat.one_pos, by simp, by simp, ?_⟩
  intro i hi
  have : i = 0 := by omega
  subst this
  simpa using h

theorem ancestor_trans {fs : List FolderRow} {x y z : Nat}
    (hxy : Ancestor fs x y) (hyz : Ancestor fs y z) : Ancestor fs x z := by
  obtain ⟨k1, c1, hk1, hc10, hc1k, hch1⟩ := hyz
  obtain ⟨k2, c2, hk2, hc20, hc2k, hch2⟩ := hxy
  refine ⟨k1 + k2, fun i => if i < k1 then c1 i else c2 (i - k1), by omega, ?_, ?_, ?_⟩
  · dsimp only
    rw [if_pos hk1]
    exact hc10
  · dsimp only
    rw [if_neg (by omega)]
    have : k1 + k2 - k1 = k2 := by omega
    rw [this, hc2k]
  · intro i hi
    dsimp only
    by_cases h1 : i + 1 < k1
    · rw [if_pos (by omega), if_pos h1]
      exact hch1 i (by omega)
    · by_cases h2 : i < k1
      · have hik : i + 1 = k1 := by omega
        rw [if_pos h2, if_neg (by omega)]
        have e := hch1 i (by omega)
        rw [hik] at e ⊢
        rw [hc1k] at e
        have : k1 - k1 = 0 := by omega
        rw [this, hc20]
        exact e
      · rw [if_neg h2, if_neg (by omega)]
        have e := hch2 (i - k1) (by omega)
        have : i + 1 - k1 = i - k1 + 1 := by omega
        rw [this]
        exact e

theorem ancestor_decomp {fs : List FolderRow} {a b p : Nat}
    (h : Ancestor fs a b) (hp : parentOf fs b = some p) : a = p ∨ Ancestor fs a p := by
  obtain ⟨k, c, hk, hc0, hck, hch⟩ := h
  have e0 := hch 0 hk
  rw [hc0, hp] at e0
  injection e0 with e0
  by_cases hk1 : k = 1
  · left
    rw [← hck, hk1, e0]
  · right
    refine ⟨k - 1, fun i => c (i + 1), by omega, ?_, ?_, ?_⟩
    · dsimp only
      rw [← e0]
    · dsimp only
      have : k - 1 + 1 = k := by omega
      rw [this, hck]
    · intro i hi
      dsimp only
      exact hch (i + 1) (by omega)

theorem ancestor_linear {fs : List FolderRow} {u v a : Nat}
    (hu : Ancestor fs u a) (hv : Ancestor fs v a) :
    u = v ∨ Ancestor fs u v ∨ Ancestor fs v u := by
  obtain ⟨k1, c1, hk1, hc10, hc1k, hch1⟩ := hu
  obtain ⟨k2, c2, hk2, hc20, hc2k, hch2⟩ := hv
  rcases Nat.le_total k1 k2 with hle | hle
  · have hagree := chain_deterministic hch1 hch2 (by rw [hc10, hc20]) k1 (le_refl k1) hle
    by_cases heq : k1 = k2
    · left
      rw [← hc1k, ← hc2k, hagree, heq]
    · right; right
      refine ⟨k2 - k1, fun i => c2 (k1 + i), by omega, ?_, ?_, ?_⟩
      · dsimp only
        rw [← hc1k, hagree]
        simp
      · dsimp only
        have : k1 + (k2 - k1) = k2 := by omega
        rw [this, hc2k]
      · intro i hi
        dsimp only
        have : k1 + i + 1 = k1 + (i + 1) := by omega
        rw [← this]
        exact hch2 (k1 + i) (by omega)
  · have hagree := chain_deterministic hch2 hch1 (by rw [hc10, hc20]) k2 (le_refl k2) hle
    by_cases heq : k2 = k1
    · left
      rw [← hc1k, ← hc2k, hagree, heq]
    · right; left
      refine ⟨k1 - k2, fun i => c1 (k2 + i), by omega, ?_, ?_, ?_⟩
      · dsimp only
        rw [← hc2k, hagree]
        simp
      · dsimp only
        have : k2 + (k1 - k2) = k1 := by omega
        rw [this, hc1k]
      · intro i hi
        dsimp only
        have : k2 + i + 1 = k2 + (i + 1) := by omega
        rw [← this]
        exact hch1 (k2 + i) (by omega)

/-- In a table with distinct ids and an acyclic parent relation, no parent
chain is longer than the table: a longer chain would revisit an id and close
a cycle. -/
theorem chain_length_le {fs : List FolderRow}
    (hacy : AcyclicParents fs) {c : Nat → Nat} {k : Nat} (hch : ParentChain fs c k) :
    k ≤ fs.length := by
  by_contra hgt
  push_neg at hgt
  set n := fs.length with hn
  have hmemid : ∀ i ≤ n, c i ∈ fs.map (fun f => f.id) := by
    intro i hi
    have e := hch i (by omega)
    unfold parentOf at e
    rcases hf : fs.find? (fun f => f.id == c i) with _ | row
    · rw [hf] at e
      simp at e
    · have hrow := List.mem_of_find?_eq_some hf
      have hid : row.id = c i := by
        have := List.find?_some hf
        simpa using this
      rw [← hid]
      exact List.mem_map_of_mem (fun f => f.id) hrow
  have hnotnodup : ¬ ((List.range (n + 1)).map c).Nodup := by
    intro hdup
    have hsub : ((List.range (n + 1)).map c) ⊆ fs.map (fun f => f.id) := by
      intro y hy
      obtain ⟨i, hi, rfl⟩ := List.mem_map.mp hy
      exact hmemid i (by simpa using Nat.lt_succ_iff.mp (List.mem_range.mp hi))
    have := (List.subperm_of_subset hdup hsub).length_le
    simp at this
  have hexist : ∃ i ∈ List.range (n + 1), ∃ j ∈ List.range (n + 1), i ≠ j ∧ c i = c j := by
    by_contra hno
    push_neg at hno
    exact hnotnodup (List.Nodup.map_on
      (fun i hi j hj hij => by
        by_contra hne
        exact absurd hij (by
          have := hno i hi j hj
          intro hc
          exact (this (by omega)) hc))
      (List.nodup_range (n + 1)))
  obtain ⟨i, hi, j, hj, hij, hcij⟩ := hexist
  rw [List.mem_range] at hi hj
  rcases Nat.lt_or_ge i j with hlt | hge
  · refine hacy (c i) ⟨j - i, fun m => c (i + m), by omega, by simp, ?_, ?_⟩
    · dsimp only
      have : i + (j - i) = j := by omega
      rw [this, hcij]
    · intro m hm
      dsimp only
      have : i + m + 1 = i + (m + 1) := by omega
      rw [← this]
      exact hch (i + m) (by omega)
  · have hlt : j < i := by omega
    refine hacy (c j) ⟨i - j, fun m => c (j + m), by omega, by simp, ?_, ?_⟩
    · dsimp only
      have : j + (i - j) = i := by omega
      rw [this, hcij]
    · intro m hm
      dsimp only
      have : j + m + 1 = j + (m + 1) := by omega
      rw [← this]
      exact hch (j + m) (by omega)

/-! ## C5: cycle-safe folder re-parenting -/

/-- The walk `isDescendant(a, b)` finds `a` whenever a parent chain leads
from `b` up to `a` and the fuel covers the chain length. -/
theorem isDescendant_of_chain (fs : List FolderRow) :
    ∀ k, 0 < k → ∀ (b : Nat) (c : Nat → Nat) (fuel : Nat),
      c 0 = b → ParentChain fs c k → k ≤ fuel →
      isDescendant fs fuel (c k) b = true := by
  intro k
  induction k with
  | zero => omega
  | succ m ih =>
    intro _ b c fuel hc0 hch hfuel
    obtain ⟨fuel', rfl⟩ : ∃ fuel', fuel = fuel' + 1 := ⟨fuel - 1, by omega⟩
    have e0 := hch 0 (by omega)
    rw [hc0] at e0
    unfold parentOf at e0
    rcases hf : fs.find? (fun f => f.id == b) with _ | row
    · rw [hf] at e0
      simp at e0
    · rw [hf] at e0
      have e0' : row.parentId = some (c 1) := by
        have : (0 : Nat) + 1 = 1 := rfl
        rw [this] at e0
        simpa using e0
      unfold isDescendant
      rw [hf]
      dsimp only
      rw [e0']
      dsimp only
      rcases Nat.eq_zero_or_pos m with rfl | hm
      · simp
      · have htail : ParentChain fs (fun i => c (i + 1)) m := by
          intro i hi
          exact hch (i + 1) (by omega)
        have hrec := ih hm (c 1) (fun i => c (i + 1)) fuel' rfl htail (by omega)
        dsimp only at hrec
        rw [Bool.or_eq_true]
        right
        exact hrec

/-- C5: for an active folder `F` and a target `T` of the same user, the move
is rejected with `BAD_REQUEST` (tRPC's InvalidArgument) when `T = F` or when
`T` is an active descendant of `F`, and the folder table — in particular
every parent pointer — is left unchanged; when `T` is a *trashed* descendant
the move still fails without touching the tree, but with `NOT_FOUND` from the
target lookup instead of `BAD_REQUEST`. -/
theorem claim_C5 (s : State) (now uid fid tgt : Nat) (F : FolderRow)
    (hnd : NodupIds s.folders) (hacy : AcyclicParents s.folders)
    (hF : F ∈ s.folders) (hFid : F.id = fid) (hFuid : F.userId = uid)
    (hFact : F.deletedAt = none)
    (hrl : (checkRateLimit now uid s).1 = Except.ok ()) :
    (tgt = fid →
      (moveFolder now uid fid (some tgt) s).1 = Except.error Err.badRequest ∧
      ((moveFolder now uid fid (some tgt) s).2).folders = s.folders) ∧
    (∀ T : FolderRow, T ∈ s.folders → T.id = tgt → T.userId = uid →
      T.deletedAt = none → Ancestor s.folders fid tgt →
      (moveFolder now uid fid (some tgt) s).1 = Except.error Err.badRequest ∧
      ((moveFolder now uid fid (some tgt) s).2).folders = s.folders) ∧
    (∀ T : FolderRow, T ∈ s.folders → T.id = tgt → T.userId = uid →
      T.deletedAt ≠ none →
      (moveFolder now uid fid (some tgt) s).1 = Except.error Err.notFound ∧
      ((moveFolder now uid fid (some tgt) s).2).folders = s.folders) := by
  rcases hck : checkRateLimit now uid s with ⟨r, s1⟩
  rw [hck] at hrl
  dsimp only at hrl
  subst hrl
  have ht := checkRateLimit_tables now uid s
  rw [hck] at ht
  obtain ⟨htf, hta, htd, htq, htb⟩ := ht
  dsimp only at htf hta htd htq htb
  have hfindF : s.folders.find?
      (fun f => f.id == fid && f.userId == uid && f.deletedAt == none) = some F := by
    refine find?_key (fun g => g.id) hnd hF (by simp [hFid, hFuid, hFact]) ?_
    intro y hy
    simp only [Bool.and_eq_true, beq_iff_eq] at hy
    dsimp only
    rw [hy.1.1, hFid]
  constructor
  · intro heq
    subst heq
    have hself : ((some tgt : Option Nat) == some tgt) = true := by simp
    simp only [moveFolder, hck, htd, hfindF, hself]
    simp [htd]
  constructor
  · intro T hT hTid hTuid hTact hanc
    have htg : tgt ≠ fid := by
      intro heq
      exact hacy fid (heq ▸ hanc)
    have hne : ((some tgt : Option Nat) == some fid) = false := by
      simp [htg]
    have hfindT : s.folders.find?
        (fun f => f.id == tgt && f.userId == uid && f.deletedAt == none) = some T := by
      refine find?_key (fun g => g.id) hnd hT (by simp [hTid, hTuid, hTact]) ?_
      intro y hy
      simp only [Bool.and_eq_true, beq_iff_eq] at hy
      dsimp only
      rw [hy.1.1, hTid]
    obtain ⟨k, c, hk, hc0, hck2, hchain⟩ := hanc
    have hklen : k ≤ s.folders.length := chain_length_le hacy hchain
    have hdesc : isDescendant s.folders s.folders.length fid tgt = true := by
      have := isDescendant_of_chain s.folders k hk tgt c s.folders.length hc0 hchain hklen
      rw [hck2] at this
      exact this
    simp only [moveFolder, hck, htd, hfindF, hne, hfindT, hdesc]
    simp [htd]
  · intro T hT hTid hTuid hTtr
    have htg : tgt ≠ fid := by
      intro heq
      have : T = F := injOn_of_nodup_map hnd hT hF (by rw [hTid, hFid, heq])
      rw [this, hFact] at hTtr
      exact hTtr rfl
    have hne : ((some tgt : Option Nat) == some fid) = false := by
      simp [htg]
    have hfindT : s.folders.find?
        (fun f => f.id == tgt && f.userId == uid && f.deletedAt == none) = none := by
      rw [List.find?_eq_none]
      intro x hx hpx
      simp only [Bool.and_eq_true, beq_iff_eq] at hpx
      have : x = T := injOn_of_nodup_map hnd hx hT (by rw [hpx.1.1, hTid])
      rw [this] at hpx
      exact hTtr hpx.2
    simp only [moveFolder, hck, htd, hfindF, hne, hfindT]
    simp [htd]

/-- C5 counterexample: folder 2 belongs to user 1 and *is* a descendant of
folder 1 (its parent pointer names folder 1), yet moving folder 1 under it
fails with `NOT_FOUND` — not the claimed InvalidArgument/`BAD_REQUEST` —
because the trashed target fails the active-target lookup first. -/
theorem claim_C5_counterexample :
    Ancestor stateX5.folders 1 2 ∧
    (moveFolder 0 1 1 (some 2) stateX5).1 = Except.error Err.notFound ∧
    (moveFolder 0 1 1 (some 2) stateX5).1 ≠ Except.error Err.badRequest := by
  refine ⟨⟨1, fun i => if i = 0 then 2 else 1, Nat.one_pos, by simp, by simp, ?_⟩, rfl, ?_⟩
  · intro i hi
    have : i = 0 := by omega
    subst this
    simp only [if_pos rfl, if_neg (by omega : (1 : Nat) ≠ 0)]
    rfl
  · intro h
    rw [show (moveFolder 0 1 1 (some 2) stateX5).1 = Except.error Err.notFound from rfl] at h
    injection h with h
    cases h

theorem acyclic_of_rankOk {fs : List FolderRow} (rank : Nat → Nat)
    (h : rankOk rank fs = true) : AcyclicParents fs := by
  have hr : ∀ f ∈ fs, ∀ p, f.parentId = some p → rank p < rank f.id := by
    intro f hf p hp
    have := List.all_eq_true.mp h f hf
    rw [hp] at this
    simpa using this
  rintro a ⟨k, c, hk, hc0, hckk, hch⟩
  have hdec : ∀ i < k, rank (c (i + 1)) < rank (c i) := by
    intro i hi
    have e := hch i hi
    unfold parentOf at e
    rcases hf : fs.find? (fun f => f.id == c i) with _ | row
    · rw [hf] at e
      simp at e
    · rw [hf] at e
      have hrow := List.mem_of_find?_eq_some hf
      have hid : row.id = c i := by
        have := List.find?_some hf
        simpa using this
      have hpar : row.parentId = some (c (i + 1)) := by
        simpa using e
      have := hr row hrow _ hpar
      rw [hid] at this
      exact this
  have hmono : ∀ i ≤ k, rank (c i) + i ≤ rank (c 0) := by
    intro i
    induction i with
    | zero => intro _; omega
    | succ n ihn =>
      intro hn
      have h1 := ihn (by omega)
      have h2 := hdec n (by omega)
      omega
  have := hmono k (le_refl k)
  rw [hckk, ← hc0] at this
  omega

theorem claim_C5_witness :
    (moveFolder 0 1 1 (some 3) stateX5).1 = Except.error Err.badRequest ∧
    ((moveFolder 0 1 1 (some 3) stateX5).2).folders = stateX5.folders := by
  have h := claim_C5 stateX5 0 1 1 3 ⟨1, 0, 1, none, none⟩ (by decide)
    (acyclic_of_rankOk (fun n => n) (by decide)) (by decide) rfl rfl rfl rfl
  exact h.2.1 ⟨3, 0, 1, some 1, none⟩ (by decide) rfl rfl rfl
    ⟨1, fun i => if i = 0 then 3 else 1, Nat.one_pos, by simp, by simp, by
      intro i hi
      have : i = 0 := by omega
      subst this
      simp only [if_pos rfl]
      rfl⟩

/-! ## C8: deletion order of recursive folder purge and trash emptying -/

theorem mem_insertDescBy (key : α → Nat) (x z : α) :
    ∀ l : List α, z ∈ insertDescBy key x l ↔ z = x ∨ z ∈ l := by
  intro l
  induction l with
  | nil => simp [insertDescBy]
  | cons y ys ih =>
    unfold insertDescBy
    by_cases hxy : key x < key y
    · rw [if_pos hxy]
      simp only [List.mem_cons, ih]
      tauto
    · rw [if_neg hxy]
      simp

theorem pairwise_insertDescBy (key : α → Nat) (x : α) (l : List α)
    (hl : l.Pairwise (fun a b => key b ≤ key a)) :
    (insertDescBy key x l).Pairwise (fun a b => key b ≤ key a) := by
  induction l with
  | nil => simp [insertDescBy]
  | cons y ys ih =>
    unfold insertDescBy
    rw [List.pairwise_cons] at hl
    by_cases hxy : key x < key y
    · rw [if_pos hxy]
      rw [List.pairwise_cons]
      constructor
      · intro z hz
        rcases (mem_insertDescBy key x z ys).mp hz with rfl | hz'
        · omega
        · exact hl.1 z hz'
      · exact ih hl.2
    · rw [if_neg hxy]
      rw [List.pairwise_cons]
      constructor
      · intro z hz
        rcases List.mem_cons.mp hz with rfl | hz'
        · omega
        · have := hl.1 z hz'
          omega
      · rw [List.pairwise_cons]
        exact hl

theorem pairwise_sortDescBy (key : α → Nat) (l : List α) :
    (sortDescBy key l).Pairwise (fun a b => key b ≤ key a) := by
  induction l with
  | nil => simp [sortDescBy]
  | cons x xs ih => exact pairwise_insertDescBy key x (sortDescBy key xs) ih

/-- Two distinct children of the same parent are never ancestor and
descendant of each other. -/
theorem siblings_no_anc {fs : List FolderRow} (hacy : AcyclicParents fs) {u v x : Nat}
    (hpu : parentOf fs u = some x) (hpv : parentOf fs v = some x)
    (hanc : Ancestor fs u v) : False := by
  rcases ancestor_decomp hanc hpv with heq | h
  · rw [heq] at hpu
    exact hacy x (ancestor_step hpu)
  · exact hacy x (ancestor_trans (ancestor_step hpu) h)

/-- Every id collected under `x` is `x` itself or a descendant of `x`. -/
theorem mem_collectIds_ancestor {fs : List FolderRow} (hnd : NodupIds fs)
    (uid : Nat) (keep : FolderRow → Bool) :
    ∀ fuel x y, y ∈ collectIds fs uid keep fuel x → y = x ∨ Ancestor fs x y := by
  intro fuel
  induction fuel with
  | zero =>
    intro x y hy
    rw [collectIds] at hy
    simp at hy
    exact Or.inl hy
  | succ m ih =>
    intro x y hy
    rw [collectIds] at hy
    rcases List.mem_cons.mp hy with rfl | hy'
    · exact Or.inl rfl
    · obtain ⟨sub, hsub, hysub⟩ := List.mem_flatMap.mp hy'
      have hsubf := List.mem_filter.mp hsub
      have hpred := hsubf.2
      simp only [Bool.and_eq_true, beq_iff_eq] at hpred
      have hpar : parentOf fs sub.id = some x := by
        rw [parentOf_of_mem hnd hsubf.1]
        exact hpred.1.1
      have hanc : Ancestor fs x sub.id := ancestor_step hpar
      rcases ih sub.id y hysub with rfl | h
      · exact Or.inr hanc
      · exact Or.inr (ancestor_trans hanc h)

theorem pairwise_flatMap_of {α β : Type} (R : β → β → Prop) (f : α → List β) :
    ∀ l : List α, (∀ a ∈ l, (f a).Pairwise R) →
      l.Pairwise (fun a a' => ∀ x ∈ f a, ∀ y ∈ f a', R x y) →
      (l.flatMap f).Pairwise R := by
  intro l
  induction l with
  | nil => simp
  | cons a as ihl =>
    intro h1 h2
    rw [List.flatMap_cons, List.pairwise_append]
    rw [List.pairwise_cons] at h2
    refine ⟨h1 a (List.mem_cons_self a as), ihl (fun b hb => h1 b (List.mem_cons_of_mem a hb)) h2.2, ?_⟩
    intro x hx y hy
    obtain ⟨a', ha', hy'⟩ := List.mem_flatMap.mp hy
    exact h2.1 a' ha' x hx y hy'

/-- The depth-first collection lists every folder before any of its collected
descendants: no later element is the parent of an earlier one. -/
theorem collectIds_pairwise {fs : List FolderRow} (hnd : NodupIds fs)
    (hacy : AcyclicParents fs) (uid : Nat) (keep : FolderRow → Bool) :
    ∀ fuel x, (collectIds fs uid keep fuel x).Pairwise
      (fun a b => parentOf fs a ≠ some b) := by
  intro fuel
  induction fuel with
  | zero =>
    intro x
    rw [collectIds]
    simp
  | succ m ih =>
    intro x
    rw [collectIds]
    rw [List.pairwise_cons]
    constructor
    · intro b hb hpx
      obtain ⟨sub, hsub, hbsub⟩ := List.mem_flatMap.mp hb
      have hsubf := List.mem_filter.mp hsub
      have hpred := hsubf.2
      simp only [Bool.and_eq_true, beq_iff_eq] at hpred
      have hpar : parentOf fs sub.id = some x := by
        rw [parentOf_of_mem hnd hsubf.1]
        exact hpred.1.1
      have hanc : Ancestor fs x sub.id := ancestor_step hpar
      have hbx : Ancestor fs b x := ancestor_step hpx
      rcases mem_collectIds_ancestor hnd uid keep m sub.id b hbsub with rfl | h
      · exact hacy x (ancestor_trans hanc hbx)
      · exact hacy x (ancestor_trans (ancestor_trans hanc h) hbx)
    · refine pairwise_flatMap_of _ _ _ (fun sub _ => ih sub.id) ?_
      have hids : (fs.filter (fun f => f.parentId == some x && f.userId == uid && keep f)).Pairwise
          (fun a b => a.id ≠ b.id) := by
        have hfs : fs.Pairwise (fun a b => a.id ≠ b.id) := by
          have hmapnd : (fs.map (fun f => f.id)).Pairwise (fun a b => a ≠ b) := hnd
          exact List.pairwise_map.mp hmapnd
        exact hfs.sublist (List.filter_sublist fs)
      refine hids.imp_of_mem ?_
      intro sub sub' hsubm hsubm' hne a ha b hb hpab
      have hsubf := (List.mem_filter.mp hsubm)
      have hsubf' := (List.mem_filter.mp hsubm')
      have hpred := hsubf.2
      have hpred' := hsubf'.2
      simp only [Bool.and_eq_true, beq_iff_eq] at hpred hpred'
      have hpar : parentOf fs sub.id = some x := by
        rw [parentOf_of_mem hnd hsubf.1]
        exact hpred.1.1
      have hpar' : parentOf fs sub'.id = some x := by
        rw [parentOf_of_mem hnd hsubf'.1]
        exact hpred'.1.1
      have hba : Ancestor fs b a := ancestor_step hpab
      rcases mem_collectIds_ancestor hnd uid keep m sub.id a ha with heqa | hsa
      · have hbx : b = x := by
          rw [heqa] at hpab
          rw [hpab] at hpar
          injection hpar
        rcases mem_collectIds_ancestor hnd uid keep m sub'.id b hb with heqb | hsb
        · rw [hbx] at heqb
          rw [← heqb] at hpar'
          exact hacy x (ancestor_step hpar')
        · rw [hbx] at hsb
          exact hacy sub'.id (ancestor_trans hsb (ancestor_step hpar'))
      · rcases mem_collectIds_ancestor hnd uid keep m sub'.id b hb with heqb | hsb
        · rw [heqb] at hba
          rcases ancestor_linear hsa hba with heq | h1 | h1
          · exact hne heq
          · exact siblings_no_anc hacy hpar hpar' h1
          · exact siblings_no_anc hacy hpar' hpar h1
        · have hsa2 : Ancestor fs sub'.id a := ancestor_trans hsb hba
          rcases ancestor_linear hsa hsa2 with heq | h1 | h1
          · exact hne heq
          · exact siblings_no_anc hacy hpar hpar' h1
          · exact siblings_no_anc hacy hpar' hpar h1

/-- C8 amended: `emptyTrash` does delete folders in non-increasing computed
depth (deepest first, its sort order), but `permanentlyDeleteFolder` deletes
in reverse depth-first preorder, which guarantees only that every folder is
deleted before its parent (no later-deleted folder is the parent of an
earlier-deleted one) — not global deepest-first order. -/
theorem claim_C8 (fs tf : List FolderRow) (uid fid : Nat)
    (hnd : NodupIds fs) (hacy : AcyclicParents fs) :
    (emptyTrashFolderOrder tf).Pairwise (fun a b =>
      calculateDepth tf tf.length b.id 0 ≤ calculateDepth tf tf.length a.id 0) ∧
    (pdfDeletionOrder fs uid fid).Pairwise (fun a b => parentOf fs b ≠ some a) := by
  constructor
  · exact pairwise_sortDescBy _ tf
  · unfold pdfDeletionOrder collectAllFolderIds
    rw [List.pairwise_reverse]
    exact (collectIds_pairwise hnd hacy uid (fun _ => true) fs.length fid).imp
      (fun h => h)

/-- C8 counterexample: `permanentlyDeleteFolder` on folder 1 deletes the
folder rows in the order [3, 4, 2, 1]; folder 3 has parent-chain depth 1 and
folder 4 depth 2, so a folder of smaller depth is deleted before one of
greater depth — the deletion is not strict deepest-first. -/
theorem claim_C8_counterexample :
    (permanentlyDeleteFolder 0 1 1 stateX8).1 = Except.ok () ∧
    pdfDeletionOrder stateX8.folders 1 1 = [3, 4, 2, 1] ∧
    calculateDepth stateX8.folders 4 3 0 = 1 ∧
    calculateDepth stateX8.folders 4 4 0 = 2 ∧
    ¬ (pdfDeletionOrder stateX8.folders 1 1).Pairwise (fun a b =>
        calculateDepth stateX8.folders 4 b 0 ≤ calculateDepth stateX8.folders 4 a 0) :=
  ⟨rfl, rfl, rfl, rfl, by decide⟩

theorem claim_C8_witness :
    (emptyTrashFolderOrder stateX8.folders).Pairwise (fun a b =>
      calculateDepth stateX8.folders stateX8.folders.length b.id 0 ≤
        calculateDepth stateX8.folders stateX8.folders.length a.id 0) ∧
    (pdfDeletionOrder stateX8.folders 1 1).Pairwise
      (fun a b => parentOf stateX8.folders b ≠ some a) :=
  claim_C8 stateX8.folders stateX8.folders 1 1 (by decide)
    (acyclic_of_rankOk (fun n => n) (by decide))

/-! ## C6: restoring a folder from trash -/

theorem self_mem_collectIds (fs : List FolderRow) (uid : Nat) (keep : FolderRow → Bool) :
    ∀ fuel x, x ∈ collectIds fs uid keep fuel x := by
  intro fuel x
  cases fuel with
  | zero =>
    rw [collectIds]
    exact List.mem_singleton_self x
  | succ m =>
    rw [collectIds]
    exact List.mem_cons_self x _

/-- The recursive collector reaches every folder connected to the root by a
chain of children that pass the filter, provided the fuel covers the chain
length. -/
theorem mem_collect_of_chain {fs : List FolderRow} (hnd : NodupIds fs) (uid : Nat)
    (keep : FolderRow → Bool) :
    ∀ k (c : Nat → Nat) (fuel : Nat), k ≤ fuel → ParentChain fs c k →
      (∀ i < k, ∃ f ∈ fs, f.id = c i ∧ f.userId = uid ∧ keep f = true) →
      c 0 ∈ collectIds fs uid keep fuel (c k) := by
  intro k
  induction k with
  | zero =>
    intro c fuel _ _ _
    exact self_mem_collectIds fs uid keep fuel (c 0)
  | succ k ih =>
    intro c fuel hfuel hch hcond
    obtain ⟨m, rfl⟩ : ∃ m, fuel = m + 1 := ⟨fuel - 1, by omega⟩
    obtain ⟨f, hfmem, hfid, hfuid, hfkeep⟩ := hcond k (by omega)
    have hpar : parentOf fs (c k) = some (c (k + 1)) := hch k (by omega)
    have hfpar : f.parentId = some (c (k + 1)) := by
      have hpm := parentOf_of_mem hnd hfmem
      rw [hfid] at hpm
      rw [← hpm]
      exact hpar
    rw [collectIds]
    refine List.mem_cons_of_mem _ ?_
    rw [List.mem_flatMap]
    refine ⟨f, ?_, ?_⟩
    · rw [List.mem_filter]
      refine ⟨hfmem, ?_⟩
      simp [hfpar, hfuid, hfkeep]
    · rw [hfid]
      exact ih c m (by omega) (fun i hi => hch i (by omega)) (fun i hi => hcond i (by omega))

/-- C6 amended: restoring a trashed folder fails with `PRECONDITION_FAILED`
and leaves every table except the rate window untouched whenever the folder's
parent exists and is itself trashed; when the folder is at the root or its
parent is active, the restore succeeds and clears the deleted flag on the
folder and on every folder of the *trashed-chain* subtree — every folder
reachable from the root through trashed folders of the user — together with
every trashed asset of the user in those folders.  (Trashed folders below an
interposed active folder are *not* restored: descent stops at active
folders.) -/
theorem claim_C6 (s : State) (now uid fid : Nat) (folder : FolderRow)
    (hnd : NodupIds s.folders) (hacy : AcyclicParents s.folders)
    (hmem : folder ∈ s.folders) (hid : folder.id = fid) (huid : folder.userId = uid)
    (htr : folder.deletedAt ≠ none)
    (hrl : (checkRateLimit now uid s).1 = Except.ok ()) :
    (∀ pid P, folder.parentId = some pid → P ∈ s.folders → P.id = pid →
      P.userId = uid → P.deletedAt ≠ none →
      (restoreFolderFromTrash now uid fid s).1 = Except.error Err.preconditionFailed ∧
      ((restoreFolderFromTrash now uid fid s).2).folders = s.folders ∧
      ((restoreFolderFromTrash now uid fid s).2).userAssets = s.userAssets ∧
      ((restoreFolderFromTrash now uid fid s).2).files = s.files ∧
      ((restoreFolderFromTrash now uid fid s).2).userQuotas = s.userQuotas ∧
      ((restoreFolderFromTrash now uid fid s).2).blobs = s.blobs) ∧
    ((folder.parentId = none ∨
        (∃ P ∈ s.folders, folder.parentId = some P.id ∧ P.userId = uid ∧
          P.deletedAt = none)) →
      (restoreFolderFromTrash now uid fid s).1 = Except.ok () ∧
      (∀ g ∈ s.folders, TrashedDesc s.folders uid fid g.id →
        { g with deletedAt := none } ∈ ((restoreFolderFromTrash now uid fid s).2).folders) ∧
      (∀ a ∈ s.userAssets, a.userId = uid → a.deletedAt ≠ none →
        ∀ gid, a.folderId = some gid → TrashedDesc s.folders uid fid gid →
        { a with deletedAt := none } ∈
          ((restoreFolderFromTrash now uid fid s).2).userAssets)) := by
  rcases hck : checkRateLimit now uid s with ⟨r, s1⟩
  rw [hck] at hrl
  dsimp only at hrl
  subst hrl
  have ht := checkRateLimit_tables now uid s
  rw [hck] at ht
  obtain ⟨htf, hta, htd, htq, htb⟩ := ht
  dsimp only at htf hta htd htq htb
  have hfind : s.folders.find?
      (fun f => f.id == fid && f.userId == uid && f.deletedAt != none) = some folder := by
    refine find?_key (fun g => g.id) hnd hmem
      (by simp [hid, huid, bne_iff_ne, htr]) ?_
    intro y hy
    simp only [Bool.and_eq_true, beq_iff_eq] at hy
    dsimp only
    rw [hy.1.1, hid]
  constructor
  · intro pid P hpid hPmem hPid hPuid hPtr
    have hfindP : s.folders.find? (fun f => f.id == pid && f.userId == uid) = some P := by
      refine find?_key (fun g => g.id) hnd hPmem (by simp [hPid, hPuid]) ?_
      intro y hy
      simp only [Bool.and_eq_true, beq_iff_eq] at hy
      dsimp only
      rw [hy.1, hPid]
    have hPtr' : (P.deletedAt != none) = true := by
      simp [bne_iff_ne, hPtr]
    simp only [restoreFolderFromTrash, hck, htd, hfind, hpid, hfindP, hPtr']
    simp [htf, hta, htd, htq, htb]
  · intro hparok
    have hcore : ∀ S : State,
        restoreFolderFromTrash now uid fid s = (Except.ok (), S) →
        S.folders = s.folders.map (fun f =>
          if (collectTrashedFolderIds s.folders uid s.folders.length fid).contains f.id then
            { f with deletedAt := none } else f) ∧
        S.userAssets = s.userAssets.map (fun a =>
          if a.userId == uid && a.deletedAt != none &&
              assetInFolders (collectTrashedFolderIds s.folders uid s.folders.length fid) a then
            { a with deletedAt := none } else a) := by
      intro S hS
      unfold restoreFolderFromTrash at hS
      rw [hck] at hS
      dsimp only at hS
      rw [htd, hfind] at hS
      dsimp only at hS
      rcases hpid : folder.parentId with _ | pid
      · rw [hpid] at hS
        dsimp only at hS
        injection hS with h1 h2
        rw [← h2]
        dsimp only
        rw [hta]
        exact ⟨rfl, rfl⟩
      · rw [hpid] at hS
        dsimp only at hS
        rcases hparok with hroot | ⟨P, hPmem, hPpid, hPuid, hPact⟩
        · rw [hpid] at hroot
          cases hroot
        · rw [hpid] at hPpid
          injection hPpid with hPpid
          have hfindP : s.folders.find?
              (fun f => f.id == pid && f.userId == uid) = some P := by
            refine find?_key (fun g => g.id) hnd hPmem (by simp [← hPpid, hPuid]) ?_
            intro y hy
            simp only [Bool.and_eq_true, beq_iff_eq] at hy
            dsimp only
            rw [hy.1, hPpid]
          rw [hfindP] at hS
          dsimp only at hS
          rw [if_neg (show ¬ ((P.deletedAt != none) = true) by simp [hPact])] at hS
          dsimp only at hS
          injection hS with h1 h2
          rw [← h2]
          dsimp only
          rw [hta]
          exact ⟨rfl, rfl⟩
    rcases hres : restoreFolderFromTrash now uid fid s with ⟨rr, S⟩
    have hok : rr = Except.ok () := by
      unfold restoreFolderFromTrash at hres
      rw [hck] at hres
      dsimp only at hres
      rw [htd, hfind] at hres
      dsimp only at hres
      rcases hpid : folder.parentId with _ | pid
      · rw [hpid] at hres
        dsimp only at hres
        injection hres with h1 h2
        exact h1.symm
      · rw [hpid] at hres
        dsimp only at hres
        rcases hparok with hroot | ⟨P, hPmem, hPpid, hPuid, hPact⟩
        · rw [hpid] at hroot
          cases hroot
        · rw [hpid] at hPpid
          injection hPpid with hPpid
          have hfindP : s.folders.find?
              (fun f => f.id == pid && f.userId == uid) = some P := by
            refine find?_key (fun g => g.id) hnd hPmem (by simp [← hPpid, hPuid]) ?_
            intro y hy
            simp only [Bool.and_eq_true, beq_iff_eq] at hy
            dsimp only
            rw [hy.1, hPpid]
          rw [hfindP] at hres
          dsimp only at hres
          rw [if_neg (show ¬ ((P.deletedAt != none) = true) by simp [hPact])] at hres
          dsimp only at hres
          injection hres with h1 h2
          exact h1.symm
    subst hok
    obtain ⟨hSf, hSa⟩ := hcore S hres
    have hcollect : ∀ gid, TrashedDesc s.folders uid fid gid →
        gid ∈ collectTrashedFolderIds s.folders uid s.folders.length fid := by
      intro gid ⟨k, c, hc0, hckk, hch, hcond⟩
      have hklen : k ≤ s.folders.length := chain_length_le hacy hch
      have := mem_collect_of_chain hnd uid (fun f => f.deletedAt != none) k c
        s.folders.length hklen hch (by
          intro i hi
          obtain ⟨f, hf1, hf2, hf3, hf4⟩ := hcond i hi
          exact ⟨f, hf1, hf2, hf3, by simp [bne_iff_ne, hf4]⟩)
      rw [hc0, hckk] at this
      exact this
    refine ⟨rfl, ?_, ?_⟩
    · intro g hg hdesc
      dsimp only
      rw [hSf]
      refine List.mem_map.mpr ⟨g, hg, ?_⟩
      rw [if_pos ?_]
      have hmc := hcollect g.id hdesc
      rw [List.contains_iff_exists_mem_beq]
      exact ⟨g.id, hmc, by simp⟩
    · intro a ha hauid hatr gid hagid hdesc
      dsimp only
      rw [hSa]
      refine List.mem_map.mpr ⟨a, ha, ?_⟩
      rw [if_pos ?_]
      have hgid := hcollect gid hdesc
      have hinf : assetInFolders
          (collectTrashedFolderIds s.folders uid s.folders.length fid) a = true := by
        unfold assetInFolders
        rw [hagid]
        rw [List.contains_iff_exists_mem_beq]
        exact ⟨gid, hgid, by simp⟩
      simp [hauid, bne_iff_ne, hatr, hinf]

/-- C6 counterexample: restoring root folder 1 succeeds (its parent slot is
root), and folder 3 *is* a trashed descendant folder of folder 1 — yet its
row is left trashed, because the cascade's descent stops at the interposed
active folder 2; the restore does not clear 100% of the trashed subtree. -/
theorem claim_C6_counterexample :
    (restoreFolderFromTrash 0 1 1 stateX6).1 = Except.ok () ∧
    Ancestor stateX6.folders 1 3 ∧
    (⟨3, 0, 1, some 2, some 5⟩ : FolderRow) ∈
      ((restoreFolderFromTrash 0 1 1 stateX6).2).folders := by
  refine ⟨rfl, ⟨2, fun i => if i = 0 then 3 else if i = 1 then 2 else 1,
    by omega, by simp, by simp, ?_⟩, by decide⟩
  intro i hi
  match i, hi with
  | 0, _ => decide
  | 1, _ => decide

theorem claim_C6_witness :
    (restoreFolderFromTrash 0 1 1 stateW6).1 = Except.ok () ∧
    (⟨2, 0, 1, some 1, none⟩ : FolderRow) ∈
      ((restoreFolderFromTrash 0 1 1 stateW6).2).folders ∧
    (⟨7, 0, 1, some 2, 9, none⟩ : AssetRow) ∈
      ((restoreFolderFromTrash 0 1 1 stateW6).2).userAssets := by
  have hdesc : TrashedDesc stateW6.folders 1 1 2 := by
    refine ⟨1, fun i => if i = 0 then 2 else 1, by simp, by simp, ?_, ?_⟩
    · intro i hi
      match i, hi with
      | 0, _ => decide
    · intro i hi
      match i, hi with
      | 0, _ =>
        refine ⟨⟨2, 0, 1, some 1, some 5⟩, by decide, by decide, rfl, by decide⟩
  have h := claim_C6 stateW6 0 1 1 ⟨1, 0, 1, none, some 5⟩ (by decide)
    (acyclic_of_rankOk (fun n => n) (by decide)) (by decide) rfl rfl (by decide) rfl
  have hs := h.2 (Or.inl rfl)
  exact ⟨hs.1,
    hs.2.1 ⟨2, 0, 1, some 1, some 5⟩ (by decide) hdesc,
    hs.2.2 ⟨7, 0, 1, some 2, 9, some 4⟩ (by decide) rfl (by decide) 2 rfl hdesc⟩

/-! ## C1: the dedup reference-count invariant -/

theorem countRefs_append (l : List AssetRow) (a : AssetRow) (h : Nat) :
    countRefs (l ++ [a]) h = countRefs l h + (if a.fileHash == h then 1 else 0) := by
  unfold countRefs
  rw [List.filter_append]
  by_cases hx : (a.fileHash == h) = true
  · rw [if_pos hx]
    simp [List.filter_cons, hx]
  · rw [if_neg hx]
    simp [List.filter_cons, hx]

theorem map_hash_map (l : List FileRow) (g : FileRow → FileRow)
    (hg : ∀ f, (g f).hash = f.hash) :
    (l.map g).map (fun f => f.hash) = l.map (fun f => f.hash) := by
  induction l with
  | nil => rfl
  | cons x xs ih => simp [hg x, ih]

/-- Preservation of the invariant by the `files` upsert plus fresh asset
insert performed by `confirmUpload` and (through its increment branch) by the
dedup-link path of `getUploadPresignedUrl`. -/
theorem RefInvOn_upsert (files : List FileRow) (assets : List AssetRow)
    (hash : Nat) (sz : Int) (newA : AssetRow)
    (hInv : RefInvOn files assets)
    (hfresh : ∀ a ∈ assets, a.id ≠ newA.id) (hhash : newA.fileHash = hash) :
    RefInvOn (upsertFiles hash sz files) (assets ++ [newA]) := by
  obtain ⟨hndh, hndi, hdang, hcnt⟩ := hInv
  have hidnd : ((assets ++ [newA]).map (fun a => a.id)).Nodup := by
    rw [List.map_append]
    rw [List.nodup_append]
    refine ⟨hndi, List.nodup_singleton _, ?_⟩
    intro x hx
    obtain ⟨a, ha, rfl⟩ := List.mem_map.mp hx
    simp only [List.map_cons, List.map_nil, List.mem_singleton]
    intro hcontra
    exact hfresh a ha hcontra
  unfold upsertFiles
  by_cases hany : (files.any (fun f => f.hash == hash)) = true
  · rw [if_pos hany]
    refine ⟨?_, hidnd, ?_, ?_⟩
    · rw [map_hash_map files _ (by
        intro f
        by_cases hf : (f.hash == hash) = true
        · rw [if_pos hf]
        · rw [if_neg hf])]
      exact hndh
    · intro a ha
      rcases List.mem_append.mp ha with ha' | ha'
      · obtain ⟨f, hf, hfh⟩ := hdang a ha'
        refine ⟨(fun f => if f.hash == hash then { f with refCount := f.refCount + 1 } else f) f,
          List.mem_map_of_mem _ hf, ?_⟩
        try dsimp only
        by_cases hfx : (f.hash == hash) = true
        · rw [if_pos hfx]
          exact hfh
        · rw [if_neg hfx]
          exact hfh
      · rw [List.mem_singleton] at ha'
        subst ha'
        obtain ⟨f0, hf0, hp0⟩ := List.any_eq_true.mp hany
        refine ⟨(fun f => if f.hash == hash then { f with refCount := f.refCount + 1 } else f) f0,
          List.mem_map_of_mem _ hf0, ?_⟩
        try dsimp only
        rw [if_pos hp0, hhash]
        dsimp only
        exact beq_iff_eq.mp hp0
    · intro f' hf'
      obtain ⟨f0, hf0, rfl⟩ := List.mem_map.mp hf'
      try dsimp only
      rw [countRefs_append]
      by_cases hfx : (f0.hash == hash) = true
      · rw [if_pos hfx]
        dsimp only
        have hfh : f0.hash = hash := beq_iff_eq.mp hfx
        rw [show (newA.fileHash == f0.hash) = true by simp [hhash, hfh]]
        rw [hcnt f0 hf0]
        simp
      · rw [if_neg hfx]
        have hfh : f0.hash ≠ hash := by
          intro hcontra
          exact hfx (by simp [hcontra])
        rw [show (newA.fileHash == f0.hash) = false by
          simp only [hhash]
          simp [Ne.symm hfh]]
        rw [hcnt f0 hf0]
        simp
  · rw [if_neg hany]
    have hnoasset : ∀ a ∈ assets, a.fileHash ≠ hash := by
      intro a ha hcontra
      obtain ⟨f, hf, hfh⟩ := hdang a ha
      exact hany (List.any_eq_true.mpr ⟨f, hf, by simp [hfh, hcontra]⟩)
    have hnohash : ∀ f ∈ files, f.hash ≠ hash := by
      intro f hf hcontra
      exact hany (List.any_eq_true.mpr ⟨f, hf, by simp [hcontra]⟩)
    refine ⟨?_, hidnd, ?_, ?_⟩
    · rw [List.map_append]
      rw [List.nodup_append]
      refine ⟨hndh, List.nodup_singleton _, ?_⟩
      intro x hx
      obtain ⟨f, hf, rfl⟩ := List.mem_map.mp hx
      simp only [List.map_cons, List.map_nil, List.mem_singleton]
      exact hnohash f hf
    · intro a ha
      rcases List.mem_append.mp ha with ha' | ha'
      · obtain ⟨f, hf, hfh⟩ := hdang a ha'
        exact ⟨f, List.mem_append_left _ hf, hfh⟩
      · rw [List.mem_singleton] at ha'
        subst ha'
        exact ⟨⟨hash, sz, hash, 1⟩, List.mem_append_right _ (List.mem_singleton_self _),
          hhash.symm⟩
    · intro f' hf'
      rcases List.mem_append.mp hf' with hf0 | hf0
      · rw [countRefs_append]
        rw [show (newA.fileHash == f'.hash) = false by
          simp only [hhash]
          simp [Ne.symm (hnohash f' hf0)]]
        rw [hcnt f' hf0]
        simp
      · rw [List.mem_singleton] at hf0
        subst hf0
        rw [countRefs_append]
        dsimp only
        rw [show (newA.fileHash == hash) = true by simp [hhash]]
        have hzero : countRefs assets hash = 0 := by
          unfold countRefs
          rw [List.filter_eq_nil_iff.mpr (by
            intro a ha
            simp [hnoasset a ha])]
          simp
        simp [hzero]

theorem countRefs_cons (x : AssetRow) (xs : List AssetRow) (h : Nat) :
    countRefs (x :: xs) h = countRefs xs h + (if x.fileHash == h then 1 else 0) := by
  unfold countRefs
  rw [List.filter_cons]
  by_cases hx : (x.fileHash == h) = true
  · rw [if_pos hx, if_pos hx]
    push_cast [List.length_cons]
    ring
  · rw [if_neg hx, if_neg hx]
    simp

theorem countRefs_erase (l : List AssetRow) (a : AssetRow) (h : Nat)
    (hnd : (l.map (fun x => x.id)).Nodup) (ha : a ∈ l) :
    countRefs (l.filter (fun x => !(x.id == a.id))) h =
      countRefs l h - (if a.fileHash == h then 1 else 0) := by
  induction l with
  | nil => cases ha
  | cons x xs ih =>
    simp only [List.map_cons, List.nodup_cons] at hnd
    rcases List.mem_cons.mp ha with rfl | ha'
    · rw [List.filter_cons, if_neg (by simp)]
      have hxs : xs.filter (fun y => !(y.id == a.id)) = xs := by
        rw [List.filter_eq_self]
        intro y hy
        have : a.id ≠ y.id := by
          intro hcontra
          exact hnd.1 (hcontra ▸ List.mem_map_of_mem (fun x => x.id) hy)
        simp [Ne.symm this]
      rw [hxs, countRefs_cons]
      ring
    · have hxa : x.id ≠ a.id := by
        intro hcontra
        exact hnd.1 (hcontra ▸ List.mem_map_of_mem (fun x => x.id) ha')
      rw [List.filter_cons, if_pos (by simp [hxa])]
      rw [countRefs_cons, countRefs_cons, ih hnd.2 ha']
      ring

/-- Preservation of the invariant by the purge transaction: delete one asset
row, decrement its hash's count, and drop the `files` row when the count is
exhausted. -/
theorem RefInvOn_purgeStep (st : State) (a : AssetRow) (ha : a ∈ st.userAssets)
    (hInv : RefInvOn st.files st.userAssets) :
    RefInvOn (purgeAssetTx a.id a.fileHash st).files
      (purgeAssetTx a.id a.fileHash st).userAssets := by
  obtain ⟨hndh, hndi, hdang, hcnt⟩ := hInv
  obtain ⟨f1, hf1, hf1h⟩ := hdang a ha
  rcases hfq : st.files.find? (fun x => x.hash == a.fileHash) with _ | f0
  · rw [List.find?_eq_none] at hfq
    exact absurd (by simp [hf1h]) (hfq f1 hf1)
  have hf0mem := List.mem_of_find?_eq_some hfq
  have hf0h : f0.hash = a.fileHash := by
    have := List.find?_some hfq
    simpa using this
  have hfind2 := find?_decrement st.files a.fileHash f0 hfq
  have hcnt0 : f0.refCount = countRefs st.userAssets a.fileHash := by
    rw [hcnt f0 hf0mem, hf0h]
  have herase := fun h => countRefs_erase st.userAssets a h hndi ha
  have hndi' : ((st.userAssets.filter (fun x => !(x.id == a.id))).map
      (fun x => x.id)).Nodup :=
    hndi.sublist ((List.filter_sublist st.userAssets).map (fun x : AssetRow => x.id))
  have hchain : ∀ b ∈ st.userAssets.filter (fun x => !(x.id == a.id)),
      b ∈ st.userAssets ∧ b.id ≠ a.id := by
    intro b hb
    have hmem := List.mem_of_mem_filter hb
    have hpred := List.of_mem_filter hb
    refine ⟨hmem, ?_⟩
    intro hcontra
    rw [hcontra] at hpred
    simp at hpred
  have hhashes : ((st.files.map (fun f =>
      if f.hash == a.fileHash then { f with refCount := f.refCount - 1 } else f)).map
      (fun f => f.hash)) = st.files.map (fun f => f.hash) :=
    map_hash_map st.files _ (by
      intro f
      by_cases hf : (f.hash == a.fileHash) = true
      · rw [if_pos hf]
      · rw [if_neg hf])
  by_cases hle : ({ f0 with refCount := f0.refCount - 1 } : FileRow).refCount ≤ 0
  · have hshape : purgeAssetTx a.id a.fileHash st =
        { st with
          userAssets := st.userAssets.filter (fun x => !(x.id == a.id)),
          files := (st.files.map (fun x =>
            if x.hash == a.fileHash then { x with refCount := x.refCount - 1 } else x)).filter
              (fun x => !(x.hash == a.fileHash)),
          blobs := st.blobs.filter (fun k => !(k == f0.path)) } := by
      unfold purgeAssetTx
      dsimp only
      rw [hfind2]
      dsimp only
      rw [if_pos hle]
    rw [hshape]
    dsimp only
    refine ⟨?_, hndi', ?_, ?_⟩
    · have hnd1 : ((st.files.map (fun x =>
          if x.hash == a.fileHash then { x with refCount := x.refCount - 1 } else x)).map
            (fun f => f.hash)).Nodup := by
        rw [hhashes]
        exact hndh
      exact hnd1.sublist ((List.filter_sublist _).map (fun f : FileRow => f.hash))
    · intro b hb
      obtain ⟨hbmem, hbid⟩ := hchain b hb
      obtain ⟨f, hf, hfh⟩ := hdang b hbmem
      by_cases hbh : b.fileHash = a.fileHash
      · exfalso
        have hge1 : 1 ≤ countRefs (st.userAssets.filter (fun x => !(x.id == a.id))) a.fileHash := by
          unfold countRefs
          have hbin : b ∈ (st.userAssets.filter (fun x => !(x.id == a.id))).filter
              (fun x => x.fileHash == a.fileHash) := by
            rw [List.mem_filter]
            exact ⟨hb, by simp [hbh]⟩
          have := List.length_pos.mpr (List.ne_nil_of_mem hbin)
          omega
        have := herase a.fileHash
        rw [if_pos (by simp)] at this
        dsimp only at hle
        omega
      · refine ⟨(fun x => if x.hash == a.fileHash then { x with refCount := x.refCount - 1 } else x) f, ?_, ?_⟩
        · rw [List.mem_filter]
          refine ⟨List.mem_map_of_mem _ hf, ?_⟩
          try dsimp only
          have : f.hash ≠ a.fileHash := by
            rw [hfh]
            exact hbh
          by_cases hfx : (f.hash == a.fileHash) = true
          · exact absurd (beq_iff_eq.mp hfx) this
          · rw [if_neg hfx]
            simp [this]
        · try dsimp only
          by_cases hfx : (f.hash == a.fileHash) = true
          · exact absurd (beq_iff_eq.mp hfx) (hfh ▸ hbh)
          · rw [if_neg hfx]
            exact hfh
    · intro f' hf'
      have hf'm := List.mem_of_mem_filter hf'
      have hf'p := List.of_mem_filter hf'
      obtain ⟨f00, hf00, rfl⟩ := List.mem_map.mp hf'm
      have hne : f00.hash ≠ a.fileHash := by
        intro hcontra
        rw [if_pos (by simp [hcontra])] at hf'p
        simp [hcontra] at hf'p
      rw [if_neg (by simp [hne])] at hf'p ⊢
      rw [hcnt f00 hf00, herase f00.hash]
      rw [show (a.fileHash == f00.hash) = false by simp [Ne.symm hne]]
      simp
  · have hshape : purgeAssetTx a.id a.fileHash st =
        { st with
          userAssets := st.userAssets.filter (fun x => !(x.id == a.id)),
          files := st.files.map (fun x =>
            if x.hash == a.fileHash then { x with refCount := x.refCount - 1 } else x) } := by
      unfold purgeAssetTx
      dsimp only
      rw [hfind2]
      dsimp only
      rw [if_neg hle]
    rw [hshape]
    dsimp only
    refine ⟨?_, hndi', ?_, ?_⟩
    · rw [show ((st.files.map (fun x =>
        if x.hash == a.fileHash then { x with refCount := x.refCount - 1 } else x)).map
          (fun f => f.hash)) = st.files.map (fun f => f.hash) from hhashes]
      exact hndh
    · intro b hb
      obtain ⟨hbmem, hbid⟩ := hchain b hb
      obtain ⟨f, hf, hfh⟩ := hdang b hbmem
      refine ⟨(fun x => if x.hash == a.fileHash then { x with refCount := x.refCount - 1 } else x) f,
        List.mem_map_of_mem _ hf, ?_⟩
      try dsimp only
      by_cases hfx : (f.hash == a.fileHash) = true
      · rw [if_pos hfx]
        exact hfh
      · rw [if_neg hfx]
        exact hfh
    · intro f' hf'
      obtain ⟨f00, hf00, rfl⟩ := List.mem_map.mp hf'
      try dsimp only
      by_cases hfx : (f00.hash == a.fileHash) = true
      · rw [if_pos hfx]
        have hf00f0 : f00 = f0 := injOn_of_nodup_map hndh hf00 hf0mem
          (by rw [beq_iff_eq.mp hfx, hf0h])
        subst hf00f0
        dsimp only
        rw [hf0h]
        rw [hcnt0, herase a.fileHash]
        rw [if_pos (by simp)]
      · rw [if_neg hfx]
        rw [hcnt f00 hf00, herase f00.hash]
        have hne : f00.hash ≠ a.fileHash := by
          intro hcontra
          exact hfx (by simp [hcontra])
        rw [show (a.fileHash == f00.hash) = false by simp [Ne.symm hne]]
        simp

/-- Preservation of the invariant by the per-asset purge loops of
`permanentlyDeleteFolder` and `emptyTrash`: a fold of the purge transaction
over assets drawn from the current table with pairwise distinct ids. -/
theorem RefInvOn_purgeAssets (l : List AssetRow) :
    ∀ st : State, (∀ a ∈ l, a ∈ st.userAssets) →
    (l.map (fun x => x.id)).Nodup →
    RefInvOn st.files st.userAssets →
    RefInvOn (purgeAssets l st).files (purgeAssets l st).userAssets := by
  induction l with
  | nil =>
    intro st _ _ hInv
    exact hInv
  | cons a rest ih =>
    intro st hsub hnd hInv
    simp only [List.map_cons, List.nodup_cons] at hnd
    have ha : a ∈ st.userAssets := hsub a (List.mem_cons_self _ _)
    have hInv' := RefInvOn_purgeStep st a ha hInv
    have hrest := (purgeAssetTx_rest st a.id a.fileHash).2.2.2
    have hfold : purgeAssets (a :: rest) st = purgeAssets rest (purgeAssetTx a.id a.fileHash st) :=
      rfl
    rw [hfold]
    apply ih
    · intro b hb
      rw [hrest]
      apply List.mem_filter.mpr
      refine ⟨hsub b (List.mem_cons_of_mem _ hb), ?_⟩
      have hne : b.id ≠ a.id := by
        intro hcontra
        exact hnd.1 (hcontra ▸ List.mem_map_of_mem (fun x => x.id) hb)
      simp [hne]
    · exact hnd.2
    · exact hInv'

theorem permanentlyDelete_ok {now uid aid : Nat} {s s' : State}
    (h : permanentlyDelete now uid aid s = (Except.ok (), s')) :
    ∃ s1 a f, checkRateLimit now uid s = (Except.ok (), s1) ∧
      s1.userAssets.find? (fun x => x.id == aid && x.userId == uid && x.deletedAt != none)
        = some a ∧
      s1.files.find? (fun x => x.hash == a.fileHash) = some f ∧
      s' = updateStorageUsage uid (-f.size) (purgeAssetTx aid a.fileHash s1) := by
  rcases hck : checkRateLimit now uid s with ⟨r, s1⟩
  cases r with
  | error e =>
    unfold permanentlyDelete at h
    rw [hck] at h
    simp at h
  | ok u =>
    cases u
    unfold permanentlyDelete at h
    rw [hck] at h
    dsimp only at h
    rcases hfa : s1.userAssets.find?
        (fun x => x.id == aid && x.userId == uid && x.deletedAt != none) with _ | a
    · rw [hfa] at h
      simp at h
    · rw [hfa] at h
      dsimp only at h
      rcases hff : s1.files.find? (fun x => x.hash == a.fileHash) with _ | f
      · rw [hff] at h
        simp at h
      · rw [hff] at h
        refine ⟨s1, a, f, rfl, hfa, hff, ?_⟩
        injection h with h1 h2
        exact h2.symm

/-- Inversion of a successful `getUploadPresignedUrl`: either the
non-deduplicated path (result `false`), which mutates no table beyond the
admission-control rows, or the dedup-link path (result `true`), which
increments the existing row's count and appends the new asset. -/
theorem getUploadPresignedUrl_ok {now uid fname : Nat} {size : Int} {hash : Nat}
    {folderId : Option Nat} {newId : Nat} {r : Bool} {s s' : State}
    (h : getUploadPresignedUrl now uid fname size hash folderId newId s = (Except.ok r, s')) :
    (r = false ∧ s'.files = s.files ∧ s'.userAssets = s.userAssets) ∨
    (r = true ∧ ∃ ex, s.files.find? (fun f => f.hash == hash) = some ex ∧
      s'.files = s.files.map (fun f =>
        if f.hash == ex.hash then { f with refCount := f.refCount + 1 } else f) ∧
      s'.userAssets = s.userAssets ++ [⟨newId, fname, uid, folderId, ex.hash, none⟩]) := by
  rcases hck : checkRateLimit now uid s with ⟨r1, s1⟩
  have ht1 := checkRateLimit_tables now uid s
  rw [hck] at ht1
  dsimp only at ht1
  cases r1 with
  | error e =>
    unfold getUploadPresignedUrl at h
    rw [hck] at h
    simp at h
  | ok u =>
    cases u
    unfold getUploadPresignedUrl at h
    rw [hck] at h
    dsimp only at h
    rcases hcq : checkStorageQuota uid size s1 with ⟨r2, s2⟩
    have ht2 := checkStorageQuota_tables uid size s1
    rw [hcq] at ht2
    try dsimp only at ht2
    rw [hcq] at h
    try dsimp only at h
    cases r2 with
    | error e => simp at h
    | ok u =>
      cases u
      try dsimp only at h
      rcases hfq : s2.files.find? (fun f => f.hash == hash) with _ | ex
      · rw [hfq] at h
        dsimp only at h
        injection h with h1 h2
        injection h1 with h1
        subst h1
        subst h2
        left
        exact ⟨rfl, by rw [ht2.1, ht1.1], by rw [ht2.2.1, ht1.2.1]⟩
      · rw [hfq] at h
        dsimp only at h
        injection h with h1 h2
        injection h1 with h1
        subst h1
        subst h2
        right
        refine ⟨rfl, ex, ?_, ?_, ?_⟩
        · rw [← ht1.1, ← ht2.1]
          exact hfq
        · have hu := (updateStorageUsage_tables uid size
            { s2 with
              userAssets := s2.userAssets ++ [⟨newId, fname, uid, folderId, ex.hash, none⟩],
              files := s2.files.map (fun f =>
                if f.hash == ex.hash then { f with refCount := f.refCount + 1 } else f) }).1
          rw [hu]
          dsimp only
          rw [ht2.1, ht1.1]
        · have hu := (updateStorageUsage_tables uid size
            { s2 with
              userAssets := s2.userAssets ++ [⟨newId, fname, uid, folderId, ex.hash, none⟩],
              files := s2.files.map (fun f =>
                if f.hash == ex.hash then { f with refCount := f.refCount + 1 } else f) }).2.1
          rw [hu]
          dsimp only
          rw [ht2.2.1, ht1.2.1]

/-- Inversion of a successful `permanentlyDeleteFolder` for the `files` and
`userAssets` tables: they are exactly those produced by the per-asset purge
loop over the user's assets located in the collected subtree (the subsequent
folder deletion and usage release touch neither table). -/
theorem permanentlyDeleteFolder_ok {now uid fid : Nat} {s s' : State}
    (h : permanentlyDeleteFolder now uid fid s = (Except.ok (), s')) :
    ∃ s1, checkRateLimit now uid s = (Except.ok (), s1) ∧
      s'.files = (purgeAssets (s1.userAssets.filter (fun a =>
        a.userId == uid &&
          assetInFolders (collectAllFolderIds s1.folders uid s1.folders.length fid) a)) s1).files ∧
      s'.userAssets = (purgeAssets (s1.userAssets.filter (fun a =>
        a.userId == uid &&
          assetInFolders (collectAllFolderIds s1.folders uid s1.folders.length fid) a))
            s1).userAssets := by
  rcases hck : checkRateLimit now uid s with ⟨r, s1⟩
  cases r with
  | error e =>
    unfold permanentlyDeleteFolder at h
    rw [hck] at h
    simp at h
  | ok u =>
    cases u
    unfold permanentlyDeleteFolder at h
    rw [hck] at h
    dsimp only at h
    rcases hfd : s1.folders.find?
        (fun f => f.id == fid && f.userId == uid && f.deletedAt != none) with _ | fr
    · rw [hfd] at h
      simp at h
    · rw [hfd] at h
      dsimp only at h
      rcases hjs : joinSizes s1.files (s1.userAssets.filter (fun a =>
          a.userId == uid &&
            assetInFolders (collectAllFolderIds s1.folders uid s1.folders.length fid) a))
          with _ | total
      · rw [hjs] at h
        simp at h
      · rw [hjs] at h
        dsimp only at h
        injection h with h1 h2
        subst h2
        refine ⟨s1, rfl, ?_, ?_⟩
        · rw [(updateStorageUsage_tables uid (-total) _).1]
        · rw [(updateStorageUsage_tables uid (-total) _).2.1]

/-- Inversion of a successful `emptyTrash` for the `files` and `userAssets`
tables: either the trash was empty and the state is untouched, or they are
exactly those produced by the per-asset purge loop over the user's trashed
assets. -/
theorem emptyTrash_ok {now uid : Nat} {s s' : State}
    (h : emptyTrash now uid s = (Except.ok (), s')) :
    ∃ s1, checkRateLimit now uid s = (Except.ok (), s1) ∧
      (s' = s1 ∨
        (s'.files = (purgeAssets (s1.userAssets.filter (fun a =>
            a.userId == uid && a.deletedAt != none)) s1).files ∧
         s'.userAssets = (purgeAssets (s1.userAssets.filter (fun a =>
            a.userId == uid && a.deletedAt != none)) s1).userAssets)) := by
  rcases hck : checkRateLimit now uid s with ⟨r, s1⟩
  cases r with
  | error e =>
    unfold emptyTrash at h
    rw [hck] at h
    simp at h
  | ok u =>
    cases u
    unfold emptyTrash at h
    rw [hck] at h
    dsimp only at h
    by_cases hemp : ((s1.userAssets.filter
          (fun a => a.userId == uid && a.deletedAt != none)).isEmpty &&
        (s1.folders.filter (fun f => f.userId == uid && f.deletedAt != none)).isEmpty) = true
    · rw [if_pos hemp] at h
      injection h with h1 h2
      subst h2
      exact ⟨s1, rfl, Or.inl rfl⟩
    · rw [if_neg hemp] at h
      rcases hjs : joinSizes s1.files (s1.userAssets.filter
          (fun a => a.userId == uid && a.deletedAt != none)) with _ | total
      · rw [hjs] at h
        simp at h
      · rw [hjs] at h
        dsimp only at h
        injection h with h1 h2
        subst h2
        refine ⟨s1, rfl, Or.inr ⟨?_, ?_⟩⟩
        · rw [(updateStorageUsage_tables uid (-total) _).1]
        · rw [(updateStorageUsage_tables uid (-total) _).2.1]

/-- C1: the dedup invariant — every `files` row's reference count equals the
number of `userAssets` rows (trashed or active) carrying its hash, with
duplicate-free keys and no dangling hash — is preserved by every completed
operation: upload confirm (`confirmUpload`), deduplicated link
(`getUploadPresignedUrl`), single-asset delete (`deleteAsset`), permanent
delete (`permanentlyDelete`), folder purge (`permanentlyDeleteFolder`) and
empty trash (`emptyTrash`), the upload operations under freshness of the
generated asset id. -/
theorem claim_C1 (s : State) (hInv : RefInv s) :
    (∀ (now uid fname : Nat) (size : Int) (hash : Nat) (folderId : Option Nat)
      (newId : Nat) (s' : State),
      (∀ a ∈ s.userAssets, a.id ≠ newId) →
      confirmUpload now uid fname size hash folderId newId s = (Except.ok (), s') →
      RefInv s') ∧
    (∀ (now uid fname : Nat) (size : Int) (hash : Nat) (folderId : Option Nat)
      (newId : Nat) (r : Bool) (s' : State),
      (∀ a ∈ s.userAssets, a.id ≠ newId) →
      getUploadPresignedUrl now uid fname size hash folderId newId s = (Except.ok r, s') →
      RefInv s') ∧
    (∀ (now uid aid : Nat) (s' : State),
      deleteAsset now uid aid s = (Except.ok (), s') → RefInv s') ∧
    (∀ (now uid aid : Nat) (s' : State),
      permanentlyDelete now uid aid s = (Except.ok (), s') → RefInv s') ∧
    (∀ (now uid fid : Nat) (s' : State),
      permanentlyDeleteFolder now uid fid s = (Except.ok (), s') → RefInv s') ∧
    (∀ (now uid : Nat) (s' : State),
      emptyTrash now uid s = (Except.ok (), s') → RefInv s') := by
  refine ⟨?_, ?_, ?_, ?_, ?_, ?_⟩
  · intro now uid fname size hash folderId newId s' hfresh h
    obtain ⟨s1, hck, hblob, hs'⟩ := confirmUpload_ok h
    have ht1 := checkRateLimit_tables now uid s
    rw [hck] at ht1
    dsimp only at ht1
    subst hs'
    unfold RefInv
    rw [(updateStorageUsage_tables uid size _).1, (updateStorageUsage_tables uid size _).2.1]
    dsimp only
    rw [ht1.1, ht1.2.1]
    exact RefInvOn_upsert s.files s.userAssets hash size _ hInv
      (fun a ha hc => hfresh a ha hc) rfl
  · intro now uid fname size hash folderId newId r s' hfresh h
    rcases getUploadPresignedUrl_ok h with ⟨hr, hf, ha⟩ | ⟨hr, ex, hfq, hf, ha⟩
    · unfold RefInv
      rw [hf, ha]
      exact hInv
    · unfold RefInv
      rw [hf, ha]
      have hany : s.files.any (fun f => f.hash == ex.hash) = true :=
        List.any_eq_true.mpr ⟨ex, List.mem_of_find?_eq_some hfq, by simp⟩
      have hup : upsertFiles ex.hash size s.files = s.files.map (fun f =>
          if f.hash == ex.hash then { f with refCount := f.refCount + 1 } else f) := by
        unfold upsertFiles
        rw [if_pos hany]
      rw [← hup]
      exact RefInvOn_upsert s.files s.userAssets ex.hash size _ hInv
        (fun a ha hc => hfresh a ha hc) rfl
  · intro now uid aid s' h
    obtain ⟨s1, a, f, hck, hfa, hff, hs'⟩ := deleteAsset_ok h
    have ht1 := checkRateLimit_tables now uid s
    rw [hck] at ht1
    dsimp only at ht1
    have haid : a.id = aid := by
      have := List.find?_some hfa
      simp only [Bool.and_eq_true, beq_iff_eq] at this
      exact this.1
    have hamem : a ∈ s1.userAssets := List.mem_of_find?_eq_some hfa
    subst hs'
    unfold RefInv
    rw [(updateStorageUsage_tables uid (-f.size) _).1,
      (updateStorageUsage_tables uid (-f.size) _).2.1]
    rw [← haid]
    have hInv1 : RefInvOn s1.files s1.userAssets := by
      rw [ht1.1, ht1.2.1]
      exact hInv
    exact RefInvOn_purgeStep s1 a hamem hInv1
  · intro now uid aid s' h
    obtain ⟨s1, a, f, hck, hfa, hff, hs'⟩ := permanentlyDelete_ok h
    have ht1 := checkRateLimit_tables now uid s
    rw [hck] at ht1
    dsimp only at ht1
    have haid : a.id = aid := by
      have := List.find?_some hfa
      simp only [Bool.and_eq_true, beq_iff_eq] at this
      exact this.1.1
    have hamem : a ∈ s1.userAssets := List.mem_of_find?_eq_some hfa
    subst hs'
    unfold RefInv
    rw [(updateStorageUsage_tables uid (-f.size) _).1,
      (updateStorageUsage_tables uid (-f.size) _).2.1]
    rw [← haid]
    have hInv1 : RefInvOn s1.files s1.userAssets := by
      rw [ht1.1, ht1.2.1]
      exact hInv
    exact RefInvOn_purgeStep s1 a hamem hInv1
  · intro now uid fid s' h
    obtain ⟨s1, hck, hf, ha⟩ := permanentlyDeleteFolder_ok h
    have ht1 := checkRateLimit_tables now uid s
    rw [hck] at ht1
    dsimp only at ht1
    have hInv1 : RefInvOn s1.files s1.userAssets := by
      rw [ht1.1, ht1.2.1]
      exact hInv
    obtain ⟨hndh1, hndi1, hdang1, hcnt1⟩ := hInv1
    unfold RefInv
    rw [hf, ha]
    apply RefInvOn_purgeAssets
    · intro a ha'
      exact List.mem_of_mem_filter ha'
    · exact hndi1.sublist ((List.filter_sublist s1.userAssets).map (fun x : AssetRow => x.id))
    · exact ⟨hndh1, hndi1, hdang1, hcnt1⟩
  · intro now uid s' h
    obtain ⟨s1, hck, hcases⟩ := emptyTrash_ok h
    have ht1 := checkRateLimit_tables now uid s
    rw [hck] at ht1
    dsimp only at ht1
    have hInv1 : RefInvOn s1.files s1.userAssets := by
      rw [ht1.1, ht1.2.1]
      exact hInv
    rcases hcases with rfl | ⟨hf, ha⟩
    · exact hInv1
    · obtain ⟨hndh1, hndi1, hdang1, hcnt1⟩ := hInv1
      unfold RefInv
      rw [hf, ha]
      apply RefInvOn_purgeAssets
      · intro a ha'
        exact List.mem_of_mem_filter ha'
      · exact hndi1.sublist ((List.filter_sublist s1.userAssets).map (fun x : AssetRow => x.id))
      · exact ⟨hndh1, hndi1, hdang1, hcnt1⟩

theorem claim_C1_witness :
    RefInv stateC1 ∧ RefInv (deleteAsset 0 1 1 stateC1).2 := by
  have hinv : RefInv stateC1 := by
    unfold RefInv RefInvOn
    decide
  exact ⟨hinv, (claim_C1 stateC1 hinv).2.2.1 0 1 1 ((deleteAsset 0 1 1 stateC1).2) rfl⟩
